import Mathlib

/-!
Verification development for the tendon/transgress name-resolution core.

We shallowly embed the item database (`tendon-api/src/database.rs`), the
walker's insertion operations (`tendon-resolve/src/walker.rs`) and the
lowering layer (`tendon-resolve/src/lower/items.rs`,
`transgress-resolve/src/lower/attributes.rs`).

Hash maps (`Map`, `DashMap`) are embedded as association lists; where a claim
depends on iteration order we carry a key-uniqueness hypothesis and prove the
required order-independence.  Rust panics (`expect`, failed `assert!`) are
embedded as `Option`/`none` results.  The path types (`paths.rs` is not part
of the provided sources) follow the spec: a relative path is a sequence of
identifier segments, compared segment-wise lexicographically; an absolute path
is a crate id plus such a sequence.
-/

/-! ### Identifiers, paths, and their orders -/

/-- An identifier segment (the source interns these; content is a string). -/
abbrev Ident := String

/-- A relative path: an ordered list of identifier segments, `[]` is the root.
Modelled from the spec: `paths.rs` is not under the provided sources. -/
abbrev RelativePath := List Ident

/-- A crate id: name and version.  Modelled from the spec (`paths.rs` /
`identities.rs` are not under the provided sources). -/
structure CrateId where
  name : String
  version : String
deriving DecidableEq, Repr

/-- An absolute path: crate id plus segments.  Modelled from the spec. -/
structure AbsolutePath where
  crate_ : CrateId
  path : List Ident
deriving DecidableEq, Repr

/-- Embedding of `RelativePath::parent`: `none` at the root, otherwise drop the last segment. -/
def RelativePath.parent (p : RelativePath) : Option RelativePath :=
  if p = [] then none else some p.dropLast

/-- Strict lexicographic order on lists, given a strict order on elements.
This mirrors the derived `Ord` on Rust `Vec`: element-wise comparison, a
proper prefix is smaller. -/
def lexLtB (lt : α → α → Bool) : List α → List α → Bool
  | [], [] => false
  | [], _ :: _ => true
  | _ :: _, [] => false
  | a :: as, b :: bs => lt a b || (!lt b a && lexLtB lt as bs)

/-- Strict lexicographic order on pairs, given strict orders on the components.
Mirrors the derived `Ord` on Rust structs/tuples with two fields. -/
def pairLexLtB (ltA : α → α → Bool) (ltB : β → β → Bool) (x y : α × β) : Bool :=
  ltA x.1 y.1 || (!ltA y.1 x.1 && ltB x.2 y.2)

/-- Character order by code point (Rust compares strings byte-wise over UTF-8,
which agrees with code-point order). -/
def charLtB (a b : Char) : Bool := decide (a < b)

/-- String order: lexicographic over characters. -/
def strLtB (a b : String) : Bool := lexLtB charLtB a.data b.data

/-- Path order: lexicographic over segments (spec §9: the comparator on
identifier sequences is segment-wise lexicographic). -/
def pathLtB (a b : RelativePath) : Bool := lexLtB strLtB a b

/-- Crate-id order: derived (name, then version). -/
def crateIdLtB (a b : CrateId) : Bool :=
  pairLexLtB strLtB strLtB (a.name, a.version) (b.name, b.version)

/-- Absolute-path order: derived (crate, then path). -/
def absLtB (a b : AbsolutePath) : Bool :=
  pairLexLtB crateIdLtB pathLtB (a.crate_, a.path) (b.crate_, b.path)

section OrderLemmas

variable {α : Type u} {β : Type v}

/-- A strict-order package: irreflexive, connected, transitive. -/
structure IsStrictTotalB (lt : α → α → Bool) : Prop where
  irrefl : ∀ a, lt a a = false
  conn : ∀ a b, lt a b = false → lt b a = false → a = b
  trans : ∀ a b c, lt a b = true → lt b c = true → lt a c = true

theorem IsStrictTotalB.asymm {lt : α → α → Bool} (h : IsStrictTotalB lt)
    {a b : α} (hab : lt a b = true) : lt b a = false := by
  cases hba : lt b a with
  | false => rfl
  | true => exact absurd (h.trans a b a hab hba) (by simp [h.irrefl a])

theorem lexLtB_cons_iff {lt : α → α → Bool} (h : IsStrictTotalB lt)
    (a b : α) (as bs : List α) :
    lexLtB lt (a :: as) (b :: bs) = true ↔
      lt a b = true ∨ (a = b ∧ lexLtB lt as bs = true) := by
  constructor
  · intro hlt
    simp only [lexLtB, Bool.or_eq_true, Bool.and_eq_true, Bool.not_eq_true'] at hlt
    rcases hlt with hlt | ⟨hba, hrest⟩
    · exact Or.inl hlt
    · cases hab : lt a b with
      | true => exact Or.inl rfl
      | false => exact Or.inr ⟨h.conn a b hab hba, hrest⟩
  · intro hlt
    simp only [lexLtB, Bool.or_eq_true, Bool.and_eq_true, Bool.not_eq_true']
    rcases hlt with hlt | ⟨heq, hrest⟩
    · exact Or.inl hlt
    · subst heq; exact Or.inr ⟨h.irrefl a, hrest⟩

theorem lexLtB_cons_false_iff {lt : α → α → Bool} (h : IsStrictTotalB lt)
    (a b : α) (as bs : List α) :
    lexLtB lt (a :: as) (b :: bs) = false ↔
      lt b a = true ∨ (a = b ∧ lexLtB lt as bs = false) := by
  rw [← Bool.not_eq_true, lexLtB_cons_iff h]
  constructor
  · intro hlt
    push_neg at hlt
    obtain ⟨hab, heq⟩ := hlt
    cases hba : lt b a with
    | true => exact Or.inl rfl
    | false =>
      have : a = b := h.conn a b (by simpa using hab) hba
      exact Or.inr ⟨this, by simpa using heq this⟩
  · intro hlt
    push_neg
    rcases hlt with hba | ⟨heq, hrest⟩
    · constructor
      · simpa using h.asymm hba
      · intro heq; subst heq; simp [h.irrefl] at hba
    · subst heq
      exact ⟨by simp [h.irrefl], fun _ => by simpa using hrest⟩

theorem lexLtB_strict {lt : α → α → Bool} (h : IsStrictTotalB lt) :
    IsStrictTotalB (lexLtB lt) := by
  constructor
  · intro l
    induction l with
    | nil => rfl
    | cons a as ih => simp [lexLtB, h.irrefl a, ih]
  · intro l₁
    induction l₁ with
    | nil =>
      intro l₂ h₁ _
      cases l₂ with
      | nil => rfl
      | cons b bs => simp [lexLtB] at h₁
    | cons a as ih =>
      intro l₂ h₁ h₂
      cases l₂ with
      | nil => simp [lexLtB] at h₂
      | cons b bs =>
        rw [lexLtB_cons_false_iff h] at h₁ h₂
        rcases h₁ with h₁ | ⟨heq₁, h₁⟩
        · rcases h₂ with h₂ | ⟨heq₂, h₂⟩
          · exact absurd h₂ (by simp [h.asymm h₁])
          · subst heq₂; simp [h.irrefl] at h₁
        · subst heq₁
          rcases h₂ with h₂ | ⟨_, h₂⟩
          · simp [h.irrefl] at h₂
          · rw [ih bs h₁ h₂]
  · intro l₁
    induction l₁ with
    | nil =>
      intro l₂ l₃ h₁ h₂
      cases l₂ with
      | nil => exact h₂
      | cons b bs =>
        cases l₃ with
        | nil => simp [lexLtB] at h₂
        | cons c cs => simp [lexLtB]
    | cons a as ih =>
      intro l₂ l₃ h₁ h₂
      cases l₂ with
      | nil => simp [lexLtB] at h₁
      | cons b bs =>
        cases l₃ with
        | nil => simp [lexLtB] at h₂
        | cons c cs =>
          rw [lexLtB_cons_iff h] at h₁ h₂ ⊢
          rcases h₁ with h₁ | ⟨heq₁, h₁⟩
          · rcases h₂ with h₂ | ⟨heq₂, h₂⟩
            · exact Or.inl (h.trans a b c h₁ h₂)
            · subst heq₂; exact Or.inl h₁
          · subst heq₁
            rcases h₂ with h₂ | ⟨heq₂, h₂⟩
            · exact Or.inl h₂
            · subst heq₂; exact Or.inr ⟨rfl, ih bs cs h₁ h₂⟩

theorem pairLexLtB_iff {ltA : α → α → Bool} {ltB : β → β → Bool}
    (hA : IsStrictTotalB ltA) (x y : α × β) :
    pairLexLtB ltA ltB x y = true ↔
      ltA x.1 y.1 = true ∨ (x.1 = y.1 ∧ ltB x.2 y.2 = true) := by
  constructor
  · intro hlt
    simp only [pairLexLtB, Bool.or_eq_true, Bool.and_eq_true, Bool.not_eq_true'] at hlt
    rcases hlt with hlt | ⟨hba, hrest⟩
    · exact Or.inl hlt
    · cases hab : ltA x.1 y.1 with
      | true => exact Or.inl rfl
      | false => exact Or.inr ⟨hA.conn _ _ hab hba, hrest⟩
  · intro hlt
    simp only [pairLexLtB, Bool.or_eq_true, Bool.and_eq_true, Bool.not_eq_true']
    rcases hlt with hlt | ⟨heq, hrest⟩
    · exact Or.inl hlt
    · rw [heq]; exact Or.inr ⟨hA.irrefl _, hrest⟩

theorem pairLexLtB_strict {ltA : α → α → Bool} {ltB : β → β → Bool}
    (hA : IsStrictTotalB ltA) (hB : IsStrictTotalB ltB) :
    IsStrictTotalB (pairLexLtB ltA ltB) := by
  constructor
  · intro x; simp [pairLexLtB, hA.irrefl, hB.irrefl]
  · intro x y h₁ h₂
    rw [← Bool.not_eq_true, pairLexLtB_iff hA] at h₁ h₂
    push_neg at h₁ h₂
    obtain ⟨hxy, hx⟩ := h₁
    obtain ⟨hyx, hy⟩ := h₂
    have heq : x.1 = y.1 := hA.conn _ _ (by simpa using hxy) (by simpa using hyx)
    have heq₂ : x.2 = y.2 :=
      hB.conn _ _ (by simpa using hx heq) (by simpa using hy heq.symm)
    exact Prod.ext heq heq₂
  · intro x y z h₁ h₂
    rw [pairLexLtB_iff hA] at h₁ h₂ ⊢
    rcases h₁ with h₁ | ⟨heq₁, h₁⟩
    · rcases h₂ with h₂ | ⟨heq₂, h₂⟩
      · exact Or.inl (hA.trans _ _ _ h₁ h₂)
      · exact Or.inl (heq₂ ▸ h₁)
    · rcases h₂ with h₂ | ⟨heq₂, h₂⟩
      · exact Or.inl (heq₁ ▸ h₂)
      · exact Or.inr ⟨heq₁.trans heq₂, hB.trans _ _ _ h₁ h₂⟩

theorem charLtB_strict : IsStrictTotalB charLtB := by
  constructor
  · intro a; simp [charLtB]
  · intro a b h₁ h₂
    simp only [charLtB, decide_eq_false_iff_not] at h₁ h₂
    exact le_antisymm (not_lt.mp h₂) (not_lt.mp h₁)
  · intro a b c h₁ h₂
    simp only [charLtB, decide_eq_true_eq] at h₁ h₂ ⊢
    exact lt_trans h₁ h₂

theorem strLtB_strict : IsStrictTotalB strLtB := by
  have h := lexLtB_strict charLtB_strict
  constructor
  · intro a; exact h.irrefl a.data
  · intro a b h₁ h₂
    have := h.conn a.data b.data h₁ h₂
    cases a; cases b; exact congrArg String.mk (by simpa using this)
  · intro a b c h₁ h₂; exact h.trans a.data b.data c.data h₁ h₂

theorem pathLtB_strict : IsStrictTotalB pathLtB :=
  lexLtB_strict strLtB_strict

theorem crateIdLtB_strict : IsStrictTotalB crateIdLtB := by
  have h := pairLexLtB_strict strLtB_strict strLtB_strict
  constructor
  · intro a; exact h.irrefl _
  · intro a b h₁ h₂
    have := h.conn _ _ h₁ h₂
    cases a; cases b
    simpa using And.intro (congrArg Prod.fst this) (congrArg Prod.snd this)
  · intro a b c h₁ h₂; exact h.trans _ _ _ h₁ h₂

theorem absLtB_strict : IsStrictTotalB absLtB := by
  have h := pairLexLtB_strict crateIdLtB_strict pathLtB_strict
  constructor
  · intro a; exact h.irrefl _
  · intro a b h₁ h₂
    have := h.conn _ _ h₁ h₂
    cases a; cases b
    simpa using And.intro (congrArg Prod.fst this) (congrArg Prod.snd this)
  · intro a b c h₁ h₂; exact h.trans _ _ _ h₁ h₂

end OrderLemmas

/-! ### Association lists (the embedding of the source's hash maps) -/

/-- First-match lookup in an association list (embedding of `Map::get`). -/
def alookup [DecidableEq κ] : List (κ × ν) → κ → Option ν
  | [], _ => none
  | (k, v) :: rest, key => if k = key then some v else alookup rest key

theorem alookup_append [DecidableEq κ] (l₁ l₂ : List (κ × ν)) (key : κ) :
    alookup (l₁ ++ l₂) key =
      (alookup l₁ key).rec (alookup l₂ key) (fun v => some v) := by
  induction l₁ with
  | nil => simp [alookup]
  | cons kv rest ih =>
    obtain ⟨k, v⟩ := kv
    by_cases h : k = key <;> simp [alookup, h, ih]

theorem alookup_eq_some_of_mem [DecidableEq κ] {l : List (κ × ν)} {k : κ} {v : ν}
    (hnd : (l.map Prod.fst).Nodup) (hmem : (k, v) ∈ l) : alookup l k = some v := by
  induction l with
  | nil => simp at hmem
  | cons kv rest ih =>
    obtain ⟨k', v'⟩ := kv
    simp only [List.map_cons, List.nodup_cons] at hnd
    rcases List.mem_cons.mp hmem with heq | hmem'
    · obtain ⟨h₁, h₂⟩ := Prod.mk.injEq .. ▸ heq
      simp [alookup, h₁.symm, h₂]
    · have hne : k' ≠ k := by
        intro h
        exact hnd.1 (h ▸ List.mem_map_of_mem Prod.fst hmem')
      simp [alookup, hne, ih hnd.2 hmem']

theorem mem_of_alookup_eq_some [DecidableEq κ] {l : List (κ × ν)} {k : κ} {v : ν}
    (h : alookup l k = some v) : (k, v) ∈ l := by
  induction l with
  | nil => simp [alookup] at h
  | cons kv rest ih =>
    obtain ⟨k', v'⟩ := kv
    by_cases heq : k' = k
    · subst heq
      simp only [alookup, if_pos trivial, eq_self_iff_true, if_true,
        Option.some.injEq] at h
      subst h; exact List.mem_cons_self _ _
    · simp only [alookup, if_neg heq] at h
      exact List.mem_cons_of_mem _ (ih h)

theorem alookup_eq_some_iff_mem [DecidableEq κ] {l : List (κ × ν)} {k : κ} {v : ν}
    (hnd : (l.map Prod.fst).Nodup) : alookup l k = some v ↔ (k, v) ∈ l :=
  ⟨mem_of_alookup_eq_some, alookup_eq_some_of_mem hnd⟩

theorem alookup_eq_none_iff [DecidableEq κ] {l : List (κ × ν)} {k : κ} :
    alookup l k = none ↔ k ∉ l.map Prod.fst := by
  induction l with
  | nil => simp [alookup]
  | cons kv rest ih =>
    obtain ⟨k', v'⟩ := kv
    by_cases heq : k' = k
    · subst heq; simp [alookup]
    · simp [alookup, heq, ih, Ne.symm heq]

theorem alookup_perm [DecidableEq κ] {l₁ l₂ : List (κ × ν)}
    (hnd : (l₁.map Prod.fst).Nodup) (hperm : l₁.Perm l₂) (k : κ) :
    alookup l₁ k = alookup l₂ k := by
  have hnd₂ : (l₂.map Prod.fst).Nodup := (hperm.map Prod.fst).nodup_iff.mp hnd
  cases h₁ : alookup l₁ k with
  | none =>
    have := alookup_eq_none_iff.mp h₁
    have : k ∉ l₂.map Prod.fst := fun hmem =>
      this ((hperm.map Prod.fst).mem_iff.mpr hmem)
    exact (alookup_eq_none_iff.mpr this).symm
  | some v =>
    exact (alookup_eq_some_of_mem hnd₂
      (hperm.mem_iff.mp (mem_of_alookup_eq_some h₁))).symm

/-! ### Attributes and metadata (transgress-resolve/src/lower/attributes.rs) -/

/-- Attribute paths: `Path::fake(s)` produces a single-segment path. -/
abbrev AttrPath := List Ident

/-- A token bag.  `Str` is a token stream that parses as a string literal (its
`extract_string` is the literal's value); `Raw` is any other stream (its
`extract_string` falls back to the printed tokens). -/
inductive Tokens where
  | Str (s : String)
  | Raw (s : String)
deriving DecidableEq, Repr

/-- Embedding of `extract_string`: parse as string literal, else warn and print raw. -/
def extract_string : Tokens → String
  | .Str s => s
  | .Raw s => s

mutual
/-- Structured attribute meta item: `path`, `path = literal`, `path(args...)`. -/
inductive Meta where
  | Path (path : AttrPath)
  | Assign (path : AttrPath) (literal : Tokens)
  | Call (path : AttrPath) (args : List MetaInner)

/-- Argument of a `Meta.Call`. -/
inductive MetaInner where
  | Meta (m : Meta)
  | Literal (t : Tokens)
end

/-- A parsed attribute: structured meta, or an opaque token bag. -/
inductive Attribute where
  | Meta (m : Meta)
  | Other (path : AttrPath) (input : Tokens)

/-- The path of a structured meta item. -/
def Meta.path : Meta → AttrPath
  | .Path p => p
  | .Assign p _ => p
  | .Call p _ => p

/-- Embedding of `Attribute::path()`. -/
def Attribute.path : Attribute → AttrPath
  | .Meta m => m.path
  | .Other p _ => p

/-- Visibility (`tendon-api`/`transgress-api` attributes): public, non-public,
or restricted to a subtree (`InScope(root)` is used for prelude bindings). -/
inductive Visibility where
  | Pub
  | NonPub
  | InScope (scope : AbsolutePath)
deriving DecidableEq, Repr

/-- Deprecation info pulled from `#[deprecated(since=…, note=…)]`. -/
structure Deprecation where
  since : Option String
  note : Option String

/-- Source span.  Positions are irrelevant to the claims; we keep the source
file and an opaque token. -/
structure Span where
  source_file : String
  span : Nat

/-- The syntactic span coming from the parser. -/
abbrev SynSpan := Nat

/-- Item metadata (the lowered attribute surface). -/
structure Metadata where
  visibility : Visibility
  docs : Option String
  must_use : Option String
  deprecated : Option Deprecation
  extra_attributes : List Attribute
  span : Span

/-- The surface visibility in the syntax tree (`syn::Visibility`). -/
inductive SynVisibility where
  | Public
  | Crate
  | Restricted
  | Inherited
deriving DecidableEq, Repr

/-- Context for lowering within a module: the file being lowered and the
containing module's visibility. -/
structure ModuleCtx where
  source_file : String
  visibility : Visibility

/-- The visibility match at the start of `lower_metadata`: a public keyword
yields `Pub`, no keyword inherits the module's visibility, everything else
yields `NonPub`. -/
def lowerSynVisibility (moduleVis : Visibility) : SynVisibility → Visibility
  | .Public => .Pub
  | .Inherited => moduleVis
  | _ => .NonPub

/-- Embedding of `Path::fake("doc")` (the path syn uses for doc comments). -/
def DOCS : AttrPath := ["doc"]
/-- Embedding of `Path::fake("must_use")`. -/
def MUST_USE : AttrPath := ["must_use"]
/-- Embedding of `Path::fake("deprecated")`. -/
def DEPRECATED : AttrPath := ["deprecated"]
/-- Embedding of `Path::fake("since")`. -/
def SINCE : AttrPath := ["since"]
/-- Embedding of `Path::fake("note")`. -/
def NOTE : AttrPath := ["note"]

/-- The inner loop of the `deprecated` branch of `lower_metadata`: scan the
call arguments for `since = …` / `note = …` assignments. -/
def lowerDeprecationArgs (args : List MetaInner) : Deprecation :=
  args.foldl
    (fun d arg =>
      match arg with
      | .Meta (.Assign path literal) =>
        if path = SINCE then { d with since := some (extract_string literal) }
        else if path = NOTE then { d with note := some (extract_string literal) }
        else d
      | _ => d)
    ⟨none, none⟩

/-- State of the attribute loop in `lower_metadata`:
`(docs, must_use, deprecated, extra_attributes)`. -/
abbrev MetaLoopState :=
  Option String × Option String × Option Deprecation × List Attribute

/-- One iteration of the attribute loop in `lower_metadata`.  Note that the
`doc` branch *overwrites* `docs` (`docs = Some(…)`); it does not append. -/
def lowerMetadataStep (st : MetaLoopState) (attr : Attribute) : MetaLoopState :=
  let (docs, must_use, deprecated, extra_attributes) := st
  if attr.path = DOCS then
    (some (match attr with
           | .Meta (.Assign _ literal) => extract_string literal
           | _ => ""),
     must_use, deprecated, extra_attributes)
  else if attr.path = MUST_USE then
    (docs,
     some (match attr with
           | .Meta (.Assign _ literal) => extract_string literal
           | _ => ""),
     deprecated, extra_attributes)
  else if attr.path = DEPRECATED then
    (docs, must_use,
     some (match attr with
           | .Meta (.Call _ args) => lowerDeprecationArgs args
           | _ => ⟨none, none⟩),
     extra_attributes)
  else
    (docs, must_use, deprecated, extra_attributes ++ [attr])

/-- Embedding of `lower_metadata` (transgress-resolve/src/lower/attributes.rs). -/
def lower_metadata (module : ModuleCtx) (visibility : SynVisibility)
    (attributes : List Attribute) (span : SynSpan) : Metadata :=
  let visibility := lowerSynVisibility module.visibility visibility
  let st := attributes.foldl lowerMetadataStep (none, none, none, [])
  { visibility := visibility
    docs := st.1
    must_use := st.2.1
    deprecated := st.2.2.1
    extra_attributes := st.2.2.2
    span := ⟨module.source_file, span⟩ }

/-! ### The item database (tendon-api/src/database.rs) -/

/-- Binding priority: explicit imports/definitions displace glob imports. -/
inductive Priority where
  | Glob
  | Explicit
deriving DecidableEq, Repr

/-- A name binding: a redirect from a relative path to the target's defining
identity, with the binding's visibility and priority. -/
structure Binding where
  absolute_target : AbsolutePath
  visibility : Visibility
  priority : Priority
deriving DecidableEq, Repr

/-- Database errors.  `tendon-api` declares `ItemAlreadyPresent` /
`BindingAlreadyPresent`; the parallel definition in `tendon-resolve`'s walker
adds `NoSuchScope` (the spec assumes the superset). -/
inductive DatabaseError where
  | ItemAlreadyPresent
  | BindingAlreadyPresent
  | NoSuchScope
deriving DecidableEq, Repr

/-- Embedding of `HasMetadata`: every item kind exposes its metadata. -/
class HasMetadata (I : Type) where
  metadata : I → Metadata

/-- A generic stand-in for the per-kind item payloads (`TypeItem` etc., whose
definitions live in `tendon-api/src/items.rs`, not under the provided
sources); the database operations only consult the metadata. -/
structure Item where
  metadata : Metadata

instance : HasMetadata Item := ⟨Item.metadata⟩

/-- A namespace within a crate: the definition-of-record `items` map and the
`bindings` map, both keyed by relative path. -/
structure CrateNamespace (I : Type) where
  crate_ : CrateId
  items : List (RelativePath × I)
  bindings : List (RelativePath × Binding)

/-- Create an empty namespace (`CrateNamespace::new`). -/
def CrateNamespace.new (crate_ : CrateId) : CrateNamespace I :=
  { crate_ := crate_, items := [], bindings := [] }

/-- The `self.bindings.entry(path)` match inside `CrateNamespace::add_binding`:
vacant paths accept the binding; an occupied path is replaced only when the
old binding is `Glob` and the new one `Explicit`, otherwise the insertion
fails and the stored binding is untouched. -/
def addBindingEntry (bindings : List (RelativePath × Binding)) (path : RelativePath)
    (binding : Binding) : Except DatabaseError (List (RelativePath × Binding)) :=
  match bindings with
  | [] => .ok [(path, binding)]
  | (p, old) :: rest =>
    if p = path then
      if old.priority = .Glob ∧ binding.priority = .Explicit then
        .ok ((p, binding) :: rest)
      else
        .error .BindingAlreadyPresent
    else
      match addBindingEntry rest path binding with
      | .ok rest' => .ok ((p, old) :: rest')
      | .error e => .error e

/-- Embedding of `CrateNamespace::add_binding`.  The state is returned alongside the result
(the source method takes `&mut self`). -/
def CrateNamespace.add_binding (ns : CrateNamespace I) (path : RelativePath)
    (target : AbsolutePath) (visibility : Visibility) (priority : Priority) :
    CrateNamespace I × Except DatabaseError Unit :=
  match addBindingEntry ns.bindings path
      { absolute_target := target, visibility := visibility, priority := priority } with
  | .ok bindings' => ({ ns with bindings := bindings' }, .ok ())
  | .error e => (ns, .error e)

/-- Embedding of `CrateNamespace::add_item`: insert the item at its defining path, then add
the self-binding.  Note the order: when the binding insertion fails the item
has already been inserted (`self.items.entry(...)` runs first). -/
def CrateNamespace.add_item [HasMetadata I] (ns : CrateNamespace I)
    (path : RelativePath) (item : I) :
    CrateNamespace I × Except DatabaseError Unit :=
  let visibility := (HasMetadata.metadata item).visibility
  match alookup ns.items path with
  | some _ => (ns, .error .ItemAlreadyPresent)
  | none =>
    let ns' := { ns with items := ns.items ++ [(path, item)] }
    let target := AbsolutePath.mk ns.crate_ path
    ns'.add_binding path target visibility .Explicit

/-- A per-crate database: metadata plus the four namespaces.  (`CrateData` is
reduced to the crate id; its other fields are irrelevant here.) -/
structure CrateDb where
  crate_data : CrateId
  types : CrateNamespace Item
  symbols : CrateNamespace Item
  macros : CrateNamespace Item
  modules : CrateNamespace Item

/-- Embedding of `CrateDb::get_binding::<I>` for a namespace selector. -/
def CrateDb.get_binding (getNs : CrateDb → CrateNamespace Item) (db : CrateDb)
    (path : RelativePath) : Option Binding :=
  alookup (getNs db).bindings path

/-- The loop of `CrateDb::is_module_externally_visible`, with the already
checked prefix accumulated in `cur`.  A missing module binding panics in the
source (`.expect("checking missing module?")`), embedded as `none`. -/
def isVisibleFrom (modBindings : List (RelativePath × Binding)) :
    RelativePath → List Ident → Option Bool
  | _, [] => some true
  | cur, entry :: rest =>
    let cur' := cur ++ [entry]
    match alookup modBindings cur' with
    | none => none
    | some b =>
      if b.visibility = Visibility.NonPub then some false
      else isVisibleFrom modBindings cur' rest

/-- Embedding of `CrateDb::is_module_externally_visible`: walk the prefixes of `mod_` from
the root (the root itself is not checked) and fail at the first `NonPub`.
`none` models the panic on a missing module binding. -/
def CrateDb.is_module_externally_visible (db : CrateDb) (mod_ : RelativePath) :
    Option Bool :=
  isVisibleFrom db.modules.bindings [] mod_

/-- The database: a concurrent map from crate id to sealed crate stores. -/
structure Db where
  crates : List (CrateId × CrateDb)

/-- The replacement condition inside `accessible_items`'s occupied-entry arm:
`new_shorter || new_same_and_lexicographically_earlier`. -/
def shouldReplaceB (path cur : RelativePath) : Bool :=
  decide (path.length < cur.length) ||
    (decide (path.length = cur.length) && pathLtB path cur)

/-- The `result.entry(&binding.absolute_target)` match of `accessible_items`:
vacant targets record the path, occupied targets keep the better path. -/
def updateEntry (m : List (AbsolutePath × RelativePath)) (tgt : AbsolutePath)
    (path : RelativePath) : List (AbsolutePath × RelativePath) :=
  match m with
  | [] => [(tgt, path)]
  | (t, cur) :: rest =>
    if t = tgt then (t, if shouldReplaceB path cur then path else cur) :: rest
    else (t, cur) :: updateEntry rest tgt path

/-- Eligibility of one binding in `accessible_items`: the containing module
chain must be externally visible (computed first, may panic) and the binding
itself `Pub`.  `none` models the panic inside the visibility walk. -/
def bindingEligOpt (db : CrateDb) (path : RelativePath) (binding : Binding) :
    Option Bool :=
  match path.parent with
  | none => some (decide (binding.visibility = .Pub))
  | some p =>
    (db.is_module_externally_visible p).map
      (fun vis => decide (binding.visibility = .Pub) && vis)

/-- The binding loop of `accessible_items` over the namespace's bindings. -/
def accFold (db : CrateDb) :
    List (AbsolutePath × RelativePath) → List (RelativePath × Binding) →
      Option (List (AbsolutePath × RelativePath))
  | m, [] => some m
  | m, (path, binding) :: rest =>
    match bindingEligOpt db path binding with
    | none => none
    | some e =>
      accFold db (if e then updateEntry m binding.absolute_target path else m) rest

/-- The derived strict order on `(RelativePath, AbsolutePath)` pairs used by
the final `result.sort()`. -/
def resPairLtB (x y : RelativePath × AbsolutePath) : Bool :=
  pairLexLtB pathLtB absLtB x y

/-- Non-strict pair order (`x ≤ y` iff not `y < x`). -/
def resPairLe (x y : RelativePath × AbsolutePath) : Prop :=
  resPairLtB y x = false

instance : DecidableRel resPairLe := fun x y =>
  inferInstanceAs (Decidable (resPairLtB y x = false))

/-- Embedding of `Db::accessible_items::<I>`: enumerate public, externally reachable
bindings of the crate, keep the best path per target, and sort.  `none`
models the panics (`.expect("no such crate")` and the visibility walk's
`.expect`). -/
def Db.accessible_items (db : Db) (crate_ : CrateId)
    (getNs : CrateDb → CrateNamespace Item) :
    Option (List (RelativePath × AbsolutePath)) :=
  match alookup db.crates crate_ with
  | none => none
  | some crate_db =>
    (accFold crate_db [] (getNs crate_db).bindings).map
      (fun result =>
        List.insertionSort resPairLe (result.map (fun p => (p.2, p.1))))

/-! ### The walker's insertion operations (tendon-resolve/src/walker.rs)

The walker inserts items into the crate under construction and bindings into
the containing module's `Scope`.  `Scope` and its `insert_by` live in
`tendon-api/src/scopes.rs`, which is not under the provided sources; they are
modelled from the spec (per-namespace maps from identifier to binding, with
the same Explicit-displaces-Glob rule and `BindingAlreadyPresent` /
`NoSuchScope` failure semantics). -/

/-- The four namespaces. -/
inductive NamespaceTag where
  | typeNs
  | symbolNs
  | macroNs
  | moduleNs
deriving DecidableEq, Repr

/-- Modelled from the spec: a scope binding (`tendon-api` scopes are not under
the provided sources): target identity, visibility and priority. -/
structure ScopeBinding where
  identity : AbsolutePath
  visibility : Visibility
  priority : Priority
deriving DecidableEq, Repr

/-- Modelled from the spec: a `Scope` holds per-namespace maps from identifier
to binding; we key one map by (namespace, identifier). -/
structure Scope where
  bindings : List ((NamespaceTag × Ident) × ScopeBinding)

/-- The entry logic shared by scope insertion: vacant inserts, `Explicit`
displaces `Glob`, anything else fails with `BindingAlreadyPresent`. -/
def scopeInsertEntry (key : NamespaceTag × Ident) (binding : ScopeBinding) :
    List ((NamespaceTag × Ident) × ScopeBinding) →
      Except DatabaseError (List ((NamespaceTag × Ident) × ScopeBinding))
  | [] => .ok [(key, binding)]
  | (k, old) :: rest =>
    if k = key then
      if old.priority = .Glob ∧ binding.priority = .Explicit then
        .ok ((k, binding) :: rest)
      else
        .error .BindingAlreadyPresent
    else
      match scopeInsertEntry key binding rest with
      | .ok rest' => .ok ((k, old) :: rest')
      | .error e => .error e

/-- Modelled from the spec: `Scope::insert_by` follows the same entry logic as
`CrateNamespace::add_binding`: vacant inserts, `Explicit` displaces `Glob`,
anything else fails. -/
def Scope.insert_by (scope : Scope) (namespace_id : NamespaceTag) (name : Ident)
    (target : AbsolutePath) (visibility : Visibility) (priority : Priority) :
    Except DatabaseError Scope :=
  let binding : ScopeBinding :=
    { identity := target, visibility := visibility, priority := priority }
  match scopeInsertEntry (namespace_id, name) binding scope.bindings with
  | .ok bindings' => .ok { bindings := bindings' }
  | .error e => .error e

/-- Modelled from the spec: the item payload the walker adds; only the name
and visibility from its metadata are consulted. -/
structure WalkerItemData where
  name : Ident
  visibility : Visibility
deriving DecidableEq, Repr

/-- The crate being built by a walker: one namespace's `items` map (keyed by
the full relative path, per `Walker::add`) and the `scopes` map. -/
structure WalkerCrate where
  id : CrateId
  items : List (RelativePath × WalkerItemData)
  scopes : List (RelativePath × Scope)

/-- Replace the scope stored at `path` (the `&mut Scope` write-back). -/
def WalkerCrate.setScope (w : WalkerCrate) (path : RelativePath) (scope : Scope) :
    WalkerCrate :=
  { w with
    scopes := w.scopes.map (fun kv => if kv.1 = path then (kv.1, scope) else kv) }

/-- Embedding of `Walker::add_binding_by`: look up the containing scope (a missing scope is
the tagged error `NoSuchScope`, not a panic) and insert the binding. -/
def Walker.add_binding_by (w : WalkerCrate) (containing_scope : RelativePath)
    (namespace_id : NamespaceTag) (name : Ident) (target : AbsolutePath)
    (visibility : Visibility) (priority : Priority) :
    WalkerCrate × Except DatabaseError Unit :=
  match alookup w.scopes containing_scope with
  | none => (w, .error .NoSuchScope)
  | some scope =>
    match scope.insert_by namespace_id name target visibility priority with
    | .ok scope' => (w.setScope containing_scope scope', .ok ())
    | .error e => (w, .error e)

/-- Embedding of `Walker::add`: insert the item at the path containing_scope::name into the
`items` map, then add the self-binding to the containing scope.  On a binding
failure the item stays inserted (the source mutates `items` first). -/
def Walker.add (w : WalkerCrate) (namespace_id : NamespaceTag)
    (containing_scope : RelativePath) (item : WalkerItemData) :
    WalkerCrate × Except DatabaseError RelativePath :=
  let name := item.name
  let visibility := item.visibility
  let path := containing_scope ++ [name]
  match alookup w.items path with
  | some _ => (w, .error .ItemAlreadyPresent)
  | none =>
    let w' := { w with items := w.items ++ [(path, item)] }
    let identity := AbsolutePath.mk w.id path
    match Walker.add_binding_by w' containing_scope namespace_id name identity
        visibility .Explicit with
    | (w'', .ok _) => (w'', .ok path)
    | (w'', .error e) => (w'', .error e)

/-! ### Lowering of items (tendon-resolve/src/lower/items.rs)

The type/generics lowering modules (`lower/types.rs`, `lower/generics.rs`) are
not under the provided sources; types are modelled from the spec as either an
already-typed path or a type-position macro invocation (the latter aborts
lowering of the single item, per the spec's fail-soft contract). -/

/-- A type as it appears in the syntax tree.  Modelled from the spec. -/
inductive SynType where
  | Path (path : String)
  | MacroTy (tokens : Tokens)
deriving DecidableEq, Repr

/-- A lowered type.  Modelled from the spec. -/
inductive TypeExpr where
  | Path (path : String)
deriving DecidableEq, Repr

/-- Lowering errors relevant here.  Modelled from the spec (§7): a malformed
function argument or an unsupported type-position macro aborts the item. -/
inductive LowerError where
  | MalformedFunctionArg (tokens : Tokens)
  | TypePositionMacroErr
deriving DecidableEq, Repr

/-- Embedding of `lower_type`, reduced to the claim-relevant behavior: a path type lowers,
a type-position macro aborts the item. -/
def lower_type : SynType → Except LowerError TypeExpr
  | .Path p => .ok (.Path p)
  | .MacroTy _ => .error .TypePositionMacroErr

/-- Struct/variant shape tag. -/
inductive StructKind where
  | Named
  | Tuple
  | Unit
deriving DecidableEq, Repr

/-- A field in the syntax tree. -/
structure SynField where
  ident : Option Ident
  vis : SynVisibility
  attrs : List Attribute
  ty : SynType
  span : SynSpan

/-- Variant fields in the syntax tree (`syn::Fields`). -/
inductive SynFields where
  | Named (fields : List SynField)
  | Unnamed (fields : List SynField)
  | Unit

/-- The field list of a `syn::Fields`. -/
def SynFields.list : SynFields → List SynField
  | .Named fields => fields
  | .Unnamed fields => fields
  | .Unit => []

/-- An enum variant in the syntax tree. -/
structure SynVariant where
  ident : Ident
  attrs : List Attribute
  fields : SynFields
  span : SynSpan

/-- An enum item in the syntax tree. -/
structure SynItemEnum where
  ident : Ident
  vis : SynVisibility
  attrs : List Attribute
  variants : List SynVariant
  span : SynSpan

/-- A lowered struct/variant field. -/
structure StructField where
  metadata : Metadata
  name : Ident
  type_ : TypeExpr

/-- A lowered enum variant (a miniature structure). -/
structure EnumVariant where
  metadata : Metadata
  kind : StructKind
  fields : List StructField
  name : Ident

/-- A lowered enum.  Generics, repr/derive extraction and the inherent impl
are elided (their lowering lives outside the provided sources and no claim
touches them). -/
structure EnumItem where
  metadata : Metadata
  name : Ident
  variants : List EnumVariant

/-- Embedding of `lower_fields`, with the running index used to name tuple fields. -/
def lowerFieldsFrom (loc : ModuleCtx) (i : Nat) :
    List SynField → Except LowerError (List StructField)
  | [] => .ok []
  | field :: rest => do
    let metadata := lower_metadata loc field.vis field.attrs field.span
    let name := match field.ident with
      | some ident => ident
      | none => toString i
    let type_ ← lower_type field.ty
    let rest' ← lowerFieldsFrom loc (i + 1) rest
    pure ({ metadata := metadata, name := name, type_ := type_ } :: rest')

/-- Embedding of `lower_fields`. -/
def lower_fields (loc : ModuleCtx) (fields : SynFields) :
    Except LowerError (List StructField) :=
  lowerFieldsFrom loc 0 fields.list

/-- The variant loop of `lower_enum`.  Note: the *parent enum's* visibility
is passed to `lower_metadata` for each variant. -/
def lowerVariants (loc : ModuleCtx) (enumVis : SynVisibility) :
    List SynVariant → Except LowerError (List EnumVariant)
  | [] => .ok []
  | variant :: rest => do
    let metadata := lower_metadata loc enumVis variant.attrs variant.span
    let kind := match variant.fields with
      | .Named _ => StructKind.Named
      | .Unnamed _ => StructKind.Tuple
      | .Unit => StructKind.Unit
    let fields ← lower_fields loc variant.fields
    let rest' ← lowerVariants loc enumVis rest
    pure ({ metadata := metadata, kind := kind, fields := fields,
            name := variant.ident } :: rest')

/-- Embedding of `lower_enum`. -/
def lower_enum (loc : ModuleCtx) (enum_ : SynItemEnum) :
    Except LowerError EnumItem := do
  let metadata := lower_metadata loc enum_.vis enum_.attrs enum_.span
  let variants ← lowerVariants loc enum_.vis enum_.variants
  pure { metadata := metadata, name := enum_.ident, variants := variants }

/-- Calling convention. -/
inductive Abi where
  | Rust
  | C
  | Other (s : String)
deriving DecidableEq, Repr

/-- The `extern` marker of a signature (`syn::Abi`): present with an optional
ABI name string. -/
structure SynAbi where
  name : Option String
deriving DecidableEq, Repr

/-- The claim-relevant surface of `syn::Signature`.  The argument list and
receiver are elided (their lowering depends on `lower/types.rs`, outside the
provided sources, and no claim touches them). -/
structure SynSignature where
  abi : Option SynAbi
  unsafety : Bool
  asyncness : Bool
  constness : Bool
  variadic : Bool
deriving DecidableEq, Repr

/-- A lowered signature (argument list and receiver elided as above). -/
structure Signature where
  abi : Abi
  is_unsafe : Bool
  is_async : Bool
  is_const : Bool
  variadic : Bool
deriving DecidableEq, Repr

/-- The ABI computation of `lower_signature`: no `extern` yields `Rust`, a
bare `extern` yields `C`, an ABI string is matched against `"Rust"` and
`"C"`, anything else is `Other`. -/
def lowerAbi : Option SynAbi → Abi
  | none => .Rust
  | some abi =>
    match abi.name with
    | none => .C
    | some name =>
      if name = "Rust" then .Rust
      else if name = "C" then .C
      else .Other name

/-- Embedding of `lower_signature` (claim-relevant surface). -/
def lower_signature (sig : SynSignature) : Signature :=
  { abi := lowerAbi sig.abi
    is_unsafe := sig.unsafety
    is_async := sig.asyncness
    is_const := sig.constness
    variadic := sig.variadic }

/-! ### Derived notions used by the specification statements -/

/-- The doc string the attribute loop records for one attribute: for a `doc`
attribute, the assigned literal's string (or `""` for a malformed one);
`none` for any other attribute. -/
def docStringOf (attr : Attribute) : Option String :=
  if attr.path = DOCS then
    some (match attr with
          | .Meta (.Assign _ literal) => extract_string literal
          | _ => "")
  else none

/-- The condition "Every module on the chain from the root down to `rel`'s parent is
externally visible": trivially true at the root, otherwise the parent module
passes the visibility walk. -/
def parentModulesVisible (db : CrateDb) (rel : RelativePath) : Prop :=
  ∀ p, rel.parent = some p → db.is_module_externally_visible p = some true

/-- The binding loop of `accessible_items`, assuming no panic occurs (related
to `accFold` under the panic-freedom hypothesis). -/
def accFoldPure (db : CrateDb) :
    List (AbsolutePath × RelativePath) → List (RelativePath × Binding) →
      List (AbsolutePath × RelativePath)
  | m, [] => m
  | m, (path, binding) :: rest =>
    accFoldPure db
      (if bindingEligOpt db path binding = some true then
        updateEntry m binding.absolute_target path
      else m) rest

/-- Merging one more candidate path into the currently best one. -/
def mergeBest (acc : Option RelativePath) (path : RelativePath) :
    Option RelativePath :=
  some (match acc with
        | none => path
        | some cur => if shouldReplaceB path cur then path else cur)

/-- Whether a `(path, binding)` entry is an eligible route to target `tgt`. -/
def eligMatchB (db : CrateDb) (tgt : AbsolutePath)
    (pb : RelativePath × Binding) : Bool :=
  decide (bindingEligOpt db pb.1 pb.2 = some true) &&
    decide (pb.2.absolute_target = tgt)

/-- All eligible paths to target `tgt` among the bindings `l`. -/
def candPaths (db : CrateDb) (tgt : AbsolutePath)
    (l : List (RelativePath × Binding)) : List RelativePath :=
  (l.filter (eligMatchB db tgt)).map Prod.fst

/-! ### Operation sequences over a crate namespace (for the self-binding
invariant) -/

/-- A public insertion operation on a `CrateNamespace`. -/
inductive NsOp (I : Type) where
  | addItem (path : RelativePath) (item : I)
  | addBinding (path : RelativePath) (target : AbsolutePath)
      (visibility : Visibility) (priority : Priority)

/-- Apply one operation. -/
def applyNsOp [HasMetadata I] (ns : CrateNamespace I) :
    NsOp I → CrateNamespace I × Except DatabaseError Unit
  | .addItem path item => ns.add_item path item
  | .addBinding path target visibility priority =>
    ns.add_binding path target visibility priority

/-- Apply a sequence of operations, recording whether every call succeeded
(on failure the walker logs and continues with the returned state). -/
def applyNsOps [HasMetadata I] (ns : CrateNamespace I) :
    List (NsOp I) → CrateNamespace I × Bool
  | [] => (ns, true)
  | op :: rest =>
    let step := applyNsOp ns op
    let next := applyNsOps step.1 rest
    (next.1, (match step.2 with | .ok _ => true | .error _ => false) && next.2)

/-- The self-binding invariant (spec §8, invariant 2): every stored item has
an `Explicit` binding at its defining path, targeting the defining identity,
with the item's own visibility. -/
def SelfBindingInv [HasMetadata I] (ns : CrateNamespace I) : Prop :=
  ∀ path item, (path, item) ∈ ns.items →
    ∃ b, alookup ns.bindings path = some b ∧
      b.priority = .Explicit ∧
      b.absolute_target = AbsolutePath.mk ns.crate_ path ∧
      b.visibility = (HasMetadata.metadata item).visibility

instance : IsTotal (RelativePath × AbsolutePath) resPairLe :=
  ⟨by
    intro x y
    have h : IsStrictTotalB resPairLtB := pairLexLtB_strict pathLtB_strict absLtB_strict
    cases hyx : resPairLtB y x with
    | false => exact Or.inl hyx
    | true =>
      refine Or.inr ?_
      exact IsStrictTotalB.asymm h hyx⟩

instance : IsTrans (RelativePath × AbsolutePath) resPairLe :=
  ⟨by
    intro x y z hxy hyz
    have h : IsStrictTotalB resPairLtB := pairLexLtB_strict pathLtB_strict absLtB_strict
    simp only [resPairLe] at hxy hyz ⊢
    cases hzx : resPairLtB z x with
    | false => rfl
    | true =>
      exfalso
      cases hxy' : resPairLtB x y with
      | true => exact absurd (h.trans z x y hzx hxy') (by simp [hyz])
      | false =>
        have hxeq : x = y := h.conn x y hxy' hxy
        exact absurd (hxeq ▸ hzx) (by simp [hyz])⟩

instance : IsAntisymm (RelativePath × AbsolutePath) resPairLe :=
  ⟨by
    intro x y hxy hyx
    have h : IsStrictTotalB resPairLtB := pairLexLtB_strict pathLtB_strict absLtB_strict
    exact h.conn x y hyx hxy⟩

/-- A one-binding example crate store used by witnesses: a public symbol
binding at `["f"]` pointing at its own defining identity. -/
def exampleCrateDb : CrateDb :=
  CrateDb.mk ⟨"demo", "1.0"⟩ (CrateNamespace.new ⟨"demo", "1.0"⟩)
    (CrateNamespace.mk ⟨"demo", "1.0"⟩ []
      [(["f"], ⟨⟨⟨"demo", "1.0"⟩, ["f"]⟩, .Pub, .Explicit⟩)])
    (CrateNamespace.new ⟨"demo", "1.0"⟩) (CrateNamespace.new ⟨"demo", "1.0"⟩)

/-- The example database holding `exampleCrateDb`. -/
def exampleDb : Db := ⟨[(⟨"demo", "1.0"⟩, exampleCrateDb)]⟩

/-- Two-binding example stores that differ only in the iteration order of
the bindings map (used by the determinism witness). -/
def exampleCrateDbA : CrateDb :=
  CrateDb.mk ⟨"demo", "1.0"⟩
    (CrateNamespace.mk ⟨"demo", "1.0"⟩ []
      [(["x"], ⟨⟨⟨"demo", "1.0"⟩, ["m", "x"]⟩, .Pub, .Explicit⟩),
       (["m", "x"], ⟨⟨⟨"demo", "1.0"⟩, ["m", "x"]⟩, .Pub, .Explicit⟩)])
    (CrateNamespace.new ⟨"demo", "1.0"⟩) (CrateNamespace.new ⟨"demo", "1.0"⟩)
    (CrateNamespace.mk ⟨"demo", "1.0"⟩ []
      [(["m"], ⟨⟨⟨"demo", "1.0"⟩, ["m"]⟩, .Pub, .Explicit⟩)])

/-- Embedding of `exampleCrateDbA` with the two type bindings in the opposite order. -/
def exampleCrateDbB : CrateDb :=
  CrateDb.mk ⟨"demo", "1.0"⟩
    (CrateNamespace.mk ⟨"demo", "1.0"⟩ []
      [(["m", "x"], ⟨⟨⟨"demo", "1.0"⟩, ["m", "x"]⟩, .Pub, .Explicit⟩),
       (["x"], ⟨⟨⟨"demo", "1.0"⟩, ["m", "x"]⟩, .Pub, .Explicit⟩)])
    (CrateNamespace.new ⟨"demo", "1.0"⟩) (CrateNamespace.new ⟨"demo", "1.0"⟩)
    (CrateNamespace.mk ⟨"demo", "1.0"⟩ []
      [(["m"], ⟨⟨⟨"demo", "1.0"⟩, ["m"]⟩, .Pub, .Explicit⟩)])

/-- Embedding of `Walker::add_root_scope` (walker.rs): insert the root scope
at the empty path if vacant, else `ItemAlreadyPresent`; no binding is added
for the root. -/
def Walker.add_root_scope (w : WalkerCrate) :
    WalkerCrate × Except DatabaseError RelativePath :=
  match alookup w.scopes [] with
  | some _ => (w, .error .ItemAlreadyPresent)
  | none => ({ w with scopes := w.scopes ++ [([], ⟨[]⟩)] }, .ok [])

/-- Embedding of `Walker::add` instantiated at the `Scope` namespace: the new
(empty) scope is inserted into the `scopes` map at its defining path, then
its self-binding is added to the containing scope — the same
insert-item-then-bind structure as for any other item kind. -/
def Walker.addScope (w : WalkerCrate) (namespace_id : NamespaceTag)
    (containing_scope : RelativePath) (name : Ident) (visibility : Visibility) :
    WalkerCrate × Except DatabaseError RelativePath :=
  let path := containing_scope ++ [name]
  match alookup w.scopes path with
  | some _ => (w, .error .ItemAlreadyPresent)
  | none =>
    let w' := { w with scopes := w.scopes ++ [(path, ⟨[]⟩)] }
    let identity := AbsolutePath.mk w.id path
    match Walker.add_binding_by w' containing_scope namespace_id name identity
        visibility .Explicit with
    | (w'', .ok _) => (w'', .ok path)
    | (w'', .error e) => (w'', .error e)

/-- A store-building operation on the walker's crate (the public insertion
surface of `Walker`). -/
inductive WalkerOp where
  | addRootScope
  | addScope (namespace_id : NamespaceTag) (containing_scope : RelativePath)
      (name : Ident) (visibility : Visibility)
  | addItem (namespace_id : NamespaceTag) (containing_scope : RelativePath)
      (item : WalkerItemData)
  | addBindingBy (containing_scope : RelativePath) (namespace_id : NamespaceTag)
      (name : Ident) (target : AbsolutePath) (visibility : Visibility)
      (priority : Priority)

/-- Apply one walker operation, discarding the returned path. -/
def applyWalkerOp (w : WalkerCrate) :
    WalkerOp → WalkerCrate × Except DatabaseError Unit
  | .addRootScope =>
    ((Walker.add_root_scope w).1, (Walker.add_root_scope w).2.map (fun _ => ()))
  | .addScope namespace_id containing_scope name visibility =>
    ((Walker.addScope w namespace_id containing_scope name visibility).1,
     (Walker.addScope w namespace_id containing_scope name
       visibility).2.map (fun _ => ()))
  | .addItem namespace_id containing_scope item =>
    ((Walker.add w namespace_id containing_scope item).1,
     (Walker.add w namespace_id containing_scope item).2.map (fun _ => ()))
  | .addBindingBy containing_scope namespace_id name target visibility priority =>
    Walker.add_binding_by w containing_scope namespace_id name target
      visibility priority

/-- Apply a sequence of walker operations, recording whether every call
succeeded. -/
def applyWalkerOps (w : WalkerCrate) : List WalkerOp → WalkerCrate × Bool
  | [] => (w, true)
  | op :: rest =>
    let step := applyWalkerOp w op
    let next := applyWalkerOps step.1 rest
    (next.1, (match step.2 with | .ok _ => true | .error _ => false) && next.2)

/-- The self-binding invariant for walker-built stores: every item stored at
`containing ++ [name]` has an `Explicit` binding for `name` in the containing
scope, targeting the item's defining identity, with the item's own
visibility. -/
def WalkerSelfBindingInv (w : WalkerCrate) : Prop :=
  ∀ path item, (path, item) ∈ w.items →
    ∃ containing tag sc b,
      path = containing ++ [item.name] ∧
      alookup w.scopes containing = some sc ∧
      alookup sc.bindings (tag, item.name) = some b ∧
      b.priority = .Explicit ∧
      b.identity = AbsolutePath.mk w.id path ∧
      b.visibility = item.visibility

/-! ### Helper lemmas -/

theorem alookup_append_left [DecidableEq κ] {l₁ l₂ : List (κ × ν)} {k : κ} {v : ν}
    (h : alookup l₁ k = some v) : alookup (l₁ ++ l₂) k = some v := by
  induction l₁ with
  | nil => simp [alookup] at h
  | cons kv rest ih =>
    obtain ⟨k', v'⟩ := kv
    by_cases heq : k' = k
    · subst heq; simpa [alookup] using h
    · simp only [alookup, if_neg heq] at h
      simpa [alookup, heq] using ih h

theorem alookup_append_right [DecidableEq κ] {l₁ l₂ : List (κ × ν)} {k : κ}
    (h : alookup l₁ k = none) : alookup (l₁ ++ l₂) k = alookup l₂ k := by
  induction l₁ with
  | nil => simp
  | cons kv rest ih =>
    obtain ⟨k', v'⟩ := kv
    by_cases heq : k' = k
    · subst heq; simp [alookup] at h
    · simp only [alookup, if_neg heq] at h
      simpa [alookup, heq] using ih h

theorem alookup_append_single_ne [DecidableEq κ] {l : List (κ × ν)} {k q : κ} {v : ν}
    (h : q ≠ k) : alookup (l ++ [(k, v)]) q = alookup l q := by
  cases hl : alookup l q with
  | none =>
    rw [alookup_append_right hl]
    simp [alookup, Ne.symm h, hl]
  | some w => simp [alookup_append_left hl]

theorem addBindingEntry_vacant {l : List (RelativePath × Binding)}
    {path : RelativePath} (b : Binding) (h : alookup l path = none) :
    addBindingEntry l path b = .ok (l ++ [(path, b)]) := by
  induction l with
  | nil => rfl
  | cons kv rest ih =>
    obtain ⟨p, old⟩ := kv
    by_cases heq : p = path
    · subst heq; simp [alookup] at h
    · simp only [alookup, if_neg heq] at h
      simp [addBindingEntry, heq, ih h]

theorem addBindingEntry_displace {l : List (RelativePath × Binding)}
    {path : RelativePath} {old : Binding} (b : Binding)
    (h : alookup l path = some old)
    (hg : old.priority = .Glob) (he : b.priority = .Explicit) :
    ∃ l', addBindingEntry l path b = .ok l' ∧
      ∀ q, alookup l' q = if q = path then some b else alookup l q := by
  induction l with
  | nil => simp [alookup] at h
  | cons kv rest ih =>
    obtain ⟨p, cur⟩ := kv
    by_cases heq : p = path
    · subst heq
      simp only [alookup, if_pos trivial, eq_self_iff_true, if_true,
        Option.some.injEq] at h
      subst h
      refine ⟨(p, b) :: rest, by simp [addBindingEntry, hg, he], ?_⟩
      intro q
      by_cases hq : q = p
      · subst hq; simp [alookup]
      · simp [alookup, hq, Ne.symm hq]
    · simp only [alookup, if_neg heq] at h
      obtain ⟨l', hl', hlook⟩ := ih h
      refine ⟨(p, cur) :: l', by simp [addBindingEntry, heq, hl'], ?_⟩
      intro q
      by_cases hq : q = p
      · subst hq; simp [alookup, heq]
      · simp only [alookup, if_neg (Ne.symm hq)]
        rw [hlook q]

theorem addBindingEntry_occupied {l : List (RelativePath × Binding)}
    {path : RelativePath} {old : Binding} (b : Binding)
    (h : alookup l path = some old)
    (hne : ¬(old.priority = .Glob ∧ b.priority = .Explicit)) :
    addBindingEntry l path b = .error .BindingAlreadyPresent := by
  induction l with
  | nil => simp [alookup] at h
  | cons kv rest ih =>
    obtain ⟨p, cur⟩ := kv
    by_cases heq : p = path
    · subst heq
      simp only [alookup, if_pos trivial, eq_self_iff_true, if_true,
        Option.some.injEq] at h
      subst h
      simp [addBindingEntry, hne]
    · simp only [alookup, if_neg heq] at h
      simp [addBindingEntry, heq, ih h]

theorem scopeInsertEntry_occupied {l : List ((NamespaceTag × Ident) × ScopeBinding)}
    {key : NamespaceTag × Ident} {old : ScopeBinding} (b : ScopeBinding)
    (h : alookup l key = some old)
    (hne : ¬(old.priority = .Glob ∧ b.priority = .Explicit)) :
    scopeInsertEntry key b l = .error .BindingAlreadyPresent := by
  induction l with
  | nil => simp [alookup] at h
  | cons kv rest ih =>
    obtain ⟨k, cur⟩ := kv
    by_cases heq : k = key
    · subst heq
      simp only [alookup, if_pos trivial, eq_self_iff_true, if_true,
        Option.some.injEq] at h
      subst h
      simp [scopeInsertEntry, hne]
    · simp only [alookup, if_neg heq] at h
      simp [scopeInsertEntry, heq, ih h]

/-! ### Claim theorems: binding and item insertion -/

/-- C3: `add_binding` on a vacant path inserts and returns Ok; an occupied
path is displaced exactly when the old binding is `Glob` and the new one
`Explicit` (Ok, new binding stored); every other occupied case returns
`BindingAlreadyPresent` and leaves the store unchanged. -/
theorem C3_add_binding_cases (ns : CrateNamespace Item) (path : RelativePath)
    (target : AbsolutePath) (visibility : Visibility) (priority : Priority) :
    (alookup ns.bindings path = none →
      ns.add_binding path target visibility priority =
        ({ ns with bindings :=
            ns.bindings ++ [(path, ⟨target, visibility, priority⟩)] }, .ok ())) ∧
    (∀ old, alookup ns.bindings path = some old →
      (old.priority = .Glob → priority = .Explicit →
        (ns.add_binding path target visibility priority).2 = .ok () ∧
        alookup (ns.add_binding path target visibility priority).1.bindings path =
          some ⟨target, visibility, priority⟩) ∧
      (¬(old.priority = .Glob ∧ priority = .Explicit) →
        ns.add_binding path target visibility priority =
          (ns, .error .BindingAlreadyPresent))) := by
  constructor
  · intro hvac
    unfold CrateNamespace.add_binding
    rw [addBindingEntry_vacant _ hvac]
  · intro old hocc
    constructor
    · intro hg he
      obtain ⟨l', hl', hlook⟩ :=
        addBindingEntry_displace ⟨target, visibility, priority⟩ hocc hg he
      unfold CrateNamespace.add_binding
      rw [hl']
      exact ⟨rfl, by simpa using hlook path⟩
    · intro hne
      unfold CrateNamespace.add_binding
      rw [addBindingEntry_occupied _ hocc hne]

/-- Witness for C3: displacing a `Glob` binding with an `Explicit` one at the
same path succeeds and stores the new binding. -/
theorem C3_add_binding_cases_witness :
    ((CrateNamespace.mk (I := Item) ⟨"c", "1"⟩ []
        [(["x"], ⟨⟨⟨"d", "1"⟩, ["y"]⟩, .Pub, .Glob⟩)]).add_binding
      ["x"] ⟨⟨"c", "1"⟩, ["x"]⟩ .Pub .Explicit).2 = .ok () ∧
    alookup ((CrateNamespace.mk (I := Item) ⟨"c", "1"⟩ []
        [(["x"], ⟨⟨⟨"d", "1"⟩, ["y"]⟩, .Pub, .Glob⟩)]).add_binding
      ["x"] ⟨⟨"c", "1"⟩, ["x"]⟩ .Pub .Explicit).1.bindings ["x"] =
      some ⟨⟨⟨"c", "1"⟩, ["x"]⟩, .Pub, .Explicit⟩ :=
  ((C3_add_binding_cases
      (CrateNamespace.mk ⟨"c", "1"⟩ [] [(["x"], ⟨⟨⟨"d", "1"⟩, ["y"]⟩, .Pub, .Glob⟩)])
      ["x"] ⟨⟨"c", "1"⟩, ["x"]⟩ .Pub .Explicit).2
    ⟨⟨⟨"d", "1"⟩, ["y"]⟩, .Pub, .Glob⟩ rfl).1 rfl rfl

/-- C10: item insertion is not atomic on binding failure.  `add_item` at a
path vacant in `items` but occupied by an `Explicit` binding returns
`BindingAlreadyPresent`, yet the item is in the `items` map; `Walker::add`
inserts the item first too, so a `NoSuchScope` or `BindingAlreadyPresent`
binding failure leaves the inserted item in place. -/
theorem C10_item_insertion_not_atomic
    (ns : CrateNamespace Item) (path : RelativePath) (item : Item) (old : Binding)
    (hvac : alookup ns.items path = none)
    (hocc : alookup ns.bindings path = some old)
    (hexp : old.priority = .Explicit)
    (w : WalkerCrate) (tag : NamespaceTag) (scope_ : RelativePath)
    (witem : WalkerItemData)
    (hwvac : alookup w.items (scope_ ++ [witem.name]) = none)
    (hnoscope : alookup w.scopes scope_ = none)
    (w₂ : WalkerCrate) (tag₂ : NamespaceTag) (scope₂ : RelativePath)
    (witem₂ : WalkerItemData) (sc : Scope) (sold : ScopeBinding)
    (hwvac₂ : alookup w₂.items (scope₂ ++ [witem₂.name]) = none)
    (hscope₂ : alookup w₂.scopes scope₂ = some sc)
    (hsocc : alookup sc.bindings (tag₂, witem₂.name) = some sold)
    (hsexp : sold.priority = .Explicit) :
    ((ns.add_item path item).2 = .error .BindingAlreadyPresent ∧
      alookup (ns.add_item path item).1.items path = some item) ∧
    ((Walker.add w tag scope_ witem).2 = .error .NoSuchScope ∧
      alookup (Walker.add w tag scope_ witem).1.items
        (scope_ ++ [witem.name]) = some witem) ∧
    ((Walker.add w₂ tag₂ scope₂ witem₂).2 = .error .BindingAlreadyPresent ∧
      alookup (Walker.add w₂ tag₂ scope₂ witem₂).1.items
        (scope₂ ++ [witem₂.name]) = some witem₂) := by
  refine ⟨?_, ?_, ?_⟩
  · have hne : ¬(old.priority = Priority.Glob ∧
        (Binding.mk (AbsolutePath.mk ns.crate_ path)
          (HasMetadata.metadata item).visibility .Explicit).priority = .Explicit) := by
      intro hc
      rw [hexp] at hc
      exact absurd hc.1 (by simp)
    have hb := addBindingEntry_occupied
      ⟨AbsolutePath.mk ns.crate_ path,
        (HasMetadata.metadata item).visibility, .Explicit⟩ hocc hne
    simp only [CrateNamespace.add_item, hvac, CrateNamespace.add_binding, hb]
    refine ⟨trivial, ?_⟩
    rw [alookup_append_right hvac]
    simp [alookup]
  · simp only [Walker.add, hwvac, Walker.add_binding_by, hnoscope]
    refine ⟨trivial, ?_⟩
    rw [alookup_append_right hwvac]
    simp [alookup]
  · have hne : ¬(sold.priority = Priority.Glob ∧
        (ScopeBinding.mk (AbsolutePath.mk w₂.id (scope₂ ++ [witem₂.name]))
          witem₂.visibility .Explicit).priority = .Explicit) := by
      intro hc
      rw [hsexp] at hc
      exact absurd hc.1 (by simp)
    have hb := scopeInsertEntry_occupied
      ⟨AbsolutePath.mk w₂.id (scope₂ ++ [witem₂.name]),
        witem₂.visibility, .Explicit⟩ hsocc hne
    simp only [Walker.add, hwvac₂, Walker.add_binding_by, hscope₂,
      Scope.insert_by, hb]
    refine ⟨trivial, ?_⟩
    rw [alookup_append_right hwvac₂]
    simp [alookup]

/-- Witness for C10: a store with an `Explicit` binding at `["a"]` and no
item there; `add_item` fails with `BindingAlreadyPresent` but inserts. -/
theorem C10_item_insertion_not_atomic_witness :
    ((CrateNamespace.mk (I := Item) ⟨"c", "1"⟩ []
        [(["a"], ⟨⟨⟨"c", "1"⟩, ["a"]⟩, .Pub, .Explicit⟩)]).add_item ["a"]
        ⟨⟨.Pub, none, none, none, [], ⟨"f", 0⟩⟩⟩).2 =
      .error .BindingAlreadyPresent ∧
    alookup ((CrateNamespace.mk (I := Item) ⟨"c", "1"⟩ []
        [(["a"], ⟨⟨⟨"c", "1"⟩, ["a"]⟩, .Pub, .Explicit⟩)]).add_item ["a"]
        ⟨⟨.Pub, none, none, none, [], ⟨"f", 0⟩⟩⟩).1.items ["a"] =
      some ⟨⟨.Pub, none, none, none, [], ⟨"f", 0⟩⟩⟩ :=
  (C10_item_insertion_not_atomic
    (CrateNamespace.mk ⟨"c", "1"⟩ [] [(["a"], ⟨⟨⟨"c", "1"⟩, ["a"]⟩, .Pub, .Explicit⟩)])
    ["a"] ⟨⟨.Pub, none, none, none, [], ⟨"f", 0⟩⟩⟩
    ⟨⟨⟨"c", "1"⟩, ["a"]⟩, .Pub, .Explicit⟩ rfl rfl rfl
    ⟨⟨"c", "1"⟩, [], []⟩ .typeNs [] ⟨"x", .Pub⟩ rfl rfl
    ⟨⟨"c", "1"⟩, [],
      [([], ⟨[((.typeNs, "x"), ⟨⟨⟨"c", "1"⟩, ["x"]⟩, .Pub, .Explicit⟩)]⟩)]⟩
    .typeNs [] ⟨"x", .Pub⟩
    ⟨[((.typeNs, "x"), ⟨⟨⟨"c", "1"⟩, ["x"]⟩, .Pub, .Explicit⟩)]⟩
    ⟨⟨⟨"c", "1"⟩, ["x"]⟩, .Pub, .Explicit⟩ rfl rfl rfl rfl).1

theorem add_binding_preserves_inv [HasMetadata I] {ns ns' : CrateNamespace I}
    {path : RelativePath} {target : AbsolutePath} {visibility : Visibility}
    {priority : Priority}
    (hinv : SelfBindingInv ns)
    (hok : ns.add_binding path target visibility priority = (ns', .ok ())) :
    SelfBindingInv ns' := by
  cases hentry : addBindingEntry ns.bindings path ⟨target, visibility, priority⟩ with
  | error err =>
    simp only [CrateNamespace.add_binding, hentry] at hok
    exact absurd (congrArg Prod.snd hok) (by simp)
  | ok bs =>
    simp only [CrateNamespace.add_binding, hentry] at hok
    have hns : ns' = { ns with bindings := bs } := (congrArg Prod.fst hok).symm
    subst hns
    intro p i hmem
    obtain ⟨b, hb, hprio, htgt, hvis⟩ := hinv p i hmem
    cases hocc : alookup ns.bindings path with
    | none =>
      rw [addBindingEntry_vacant _ hocc] at hentry
      cases hentry
      exact ⟨b, alookup_append_left hb, hprio, htgt, hvis⟩
    | some old =>
      by_cases hcond : old.priority = Priority.Glob ∧
          (Binding.mk target visibility priority).priority = Priority.Explicit
      · obtain ⟨l2, hl2, hlook⟩ :=
          addBindingEntry_displace ⟨target, visibility, priority⟩ hocc
            hcond.1 hcond.2
        rw [hl2] at hentry
        cases hentry
        by_cases hp : p = path
        · subst hp
          rw [hb] at hocc
          cases hocc
          rw [hcond.1] at hprio
          exact absurd hprio (by simp)
        · refine ⟨b, ?_, hprio, htgt, hvis⟩
          rw [hlook p, if_neg hp]
          exact hb
      · rw [addBindingEntry_occupied _ hocc hcond] at hentry
        cases hentry

theorem add_item_preserves_inv [HasMetadata I] {ns ns' : CrateNamespace I}
    {path : RelativePath} {item : I}
    (hinv : SelfBindingInv ns)
    (hok : ns.add_item path item = (ns', .ok ())) :
    SelfBindingInv ns' := by
  cases hitems : alookup ns.items path with
  | some old =>
    simp only [CrateNamespace.add_item, hitems] at hok
    exact absurd (congrArg Prod.snd hok) (by simp)
  | none =>
    simp only [CrateNamespace.add_item, hitems, CrateNamespace.add_binding] at hok
    cases hentry : addBindingEntry ns.bindings path
        ⟨AbsolutePath.mk ns.crate_ path,
          (HasMetadata.metadata item).visibility, .Explicit⟩ with
    | error err =>
      rw [hentry] at hok
      exact absurd (congrArg Prod.snd hok) (by simp)
    | ok bs =>
      rw [hentry] at hok
      have hns : ns' =
          CrateNamespace.mk ns.crate_ (ns.items ++ [(path, item)]) bs :=
        (congrArg Prod.fst hok).symm
      subst hns
      intro p i hmem
      simp only [List.mem_append, List.mem_singleton] at hmem
      cases hocc : alookup ns.bindings path with
      | none =>
        rw [addBindingEntry_vacant _ hocc] at hentry
        cases hentry
        rcases hmem with hmem | hmem
        · obtain ⟨b, hb, hprio, htgt, hvis⟩ := hinv p i hmem
          exact ⟨b, alookup_append_left hb, hprio, htgt, hvis⟩
        · obtain ⟨hp, hi⟩ := Prod.mk.injEq .. ▸ hmem
          subst hp; subst hi
          refine ⟨⟨AbsolutePath.mk ns.crate_ p,
            (HasMetadata.metadata i).visibility, .Explicit⟩, ?_, rfl, rfl, rfl⟩
          rw [alookup_append_right hocc]
          simp [alookup]
      | some old =>
        by_cases hcond : old.priority = Priority.Glob ∧
            (Binding.mk (AbsolutePath.mk ns.crate_ path)
              (HasMetadata.metadata item).visibility .Explicit).priority =
              Priority.Explicit
        · obtain ⟨l2, hl2, hlook⟩ :=
            addBindingEntry_displace
              ⟨AbsolutePath.mk ns.crate_ path,
                (HasMetadata.metadata item).visibility, .Explicit⟩ hocc
              hcond.1 hcond.2
          rw [hl2] at hentry
          cases hentry
          rcases hmem with hmem | hmem
          · have hp : p ≠ path := by
              intro hc
              subst hc
              exact absurd (alookup_eq_none_iff.mp hitems)
                (by simp only [not_not]
                    exact List.mem_map_of_mem Prod.fst hmem)
            obtain ⟨b, hb, hprio, htgt, hvis⟩ := hinv p i hmem
            refine ⟨b, ?_, hprio, htgt, hvis⟩
            rw [hlook p, if_neg hp]
            exact hb
          · obtain ⟨hp, hi⟩ := Prod.mk.injEq .. ▸ hmem
            subst hp; subst hi
            refine ⟨⟨AbsolutePath.mk ns.crate_ p,
              (HasMetadata.metadata i).visibility, .Explicit⟩, ?_, rfl, rfl, rfl⟩
            rw [hlook p]
            simp
        · rw [addBindingEntry_occupied _ hocc hcond] at hentry
          cases hentry

theorem applyNsOps_inv [HasMetadata I] :
    ∀ (ops : List (NsOp I)) (ns ns' : CrateNamespace I),
      SelfBindingInv ns → applyNsOps ns ops = (ns', true) → SelfBindingInv ns' := by
  intro ops
  induction ops with
  | nil =>
    intro ns ns' hinv hops
    simp only [applyNsOps, Prod.mk.injEq] at hops
    exact hops.1 ▸ hinv
  | cons op rest ih =>
    intro ns ns' hinv hops
    simp only [applyNsOps, Prod.mk.injEq, Bool.and_eq_true] at hops
    obtain ⟨h1, hflag, h2⟩ := hops
    have hstep : (applyNsOp ns op).2 = .ok () := by
      cases h : (applyNsOp ns op).2 with
      | ok u => cases u; rfl
      | error e => rw [h] at hflag; simp at hflag
    have hnext : applyNsOps (applyNsOp ns op).1 rest = (ns', true) := by
      rw [Prod.ext_iff]
      exact ⟨h1, h2⟩
    have hinv' : SelfBindingInv (applyNsOp ns op).1 := by
      cases op with
      | addItem path item =>
        exact add_item_preserves_inv hinv (Prod.ext rfl hstep)
      | addBinding path target visibility priority =>
        exact add_binding_preserves_inv hinv (Prod.ext rfl hstep)
    exact ih _ _ hinv' hnext

theorem scopeInsertEntry_vacant {l : List ((NamespaceTag × Ident) × ScopeBinding)}
    {key : NamespaceTag × Ident} (b : ScopeBinding) (h : alookup l key = none) :
    scopeInsertEntry key b l = .ok (l ++ [(key, b)]) := by
  induction l with
  | nil => rfl
  | cons kv rest ih =>
    obtain ⟨k, old⟩ := kv
    by_cases heq : k = key
    · subst heq; simp [alookup] at h
    · simp only [alookup, if_neg heq] at h
      simp [scopeInsertEntry, heq, ih h]

theorem scopeInsertEntry_displace {l : List ((NamespaceTag × Ident) × ScopeBinding)}
    {key : NamespaceTag × Ident} {old : ScopeBinding} (b : ScopeBinding)
    (h : alookup l key = some old)
    (hg : old.priority = .Glob) (he : b.priority = .Explicit) :
    ∃ l', scopeInsertEntry key b l = .ok l' ∧
      ∀ q, alookup l' q = if q = key then some b else alookup l q := by
  induction l with
  | nil => simp [alookup] at h
  | cons kv rest ih =>
    obtain ⟨k, cur⟩ := kv
    by_cases heq : k = key
    · subst heq
      simp only [alookup, if_pos trivial, eq_self_iff_true, if_true,
        Option.some.injEq] at h
      subst h
      refine ⟨(k, b) :: rest, by simp [scopeInsertEntry, hg, he], ?_⟩
      intro q
      by_cases hq : q = k
      · subst hq; simp [alookup]
      · simp [alookup, hq, Ne.symm hq]
    · simp only [alookup, if_neg heq] at h
      obtain ⟨l', hl', hlook⟩ := ih h
      refine ⟨(k, cur) :: l', by simp [scopeInsertEntry, heq, hl'], ?_⟩
      intro q
      by_cases hq : q = k
      · subst hq; simp [alookup, heq]
      · simp only [alookup, if_neg (Ne.symm hq)]
        rw [hlook q]

theorem alookup_map_replace [DecidableEq κ] (l : List (κ × ν)) (k : κ) (v : ν)
    (q : κ) :
    alookup (l.map (fun kv => if kv.1 = k then (kv.1, v) else kv)) q =
      if q = k then (alookup l k).map (fun _ => v) else alookup l q := by
  induction l with
  | nil => by_cases hq : q = k <;> simp [alookup, hq]
  | cons kv rest ih =>
    obtain ⟨k0, v0⟩ := kv
    by_cases hk0 : k0 = k
    · have hhead : List.map (fun kv : κ × ν => if kv.1 = k then (kv.1, v) else kv)
          ((k0, v0) :: rest) =
          (k0, v) :: rest.map (fun kv => if kv.1 = k then (kv.1, v) else kv) := by
        rw [List.map_cons]
        congr 1
        show (if k0 = k then (k0, v) else (k0, v0)) = (k0, v)
        rw [if_pos hk0]
      rw [hhead]
      by_cases hq : k0 = q
      · have hqk : q = k := hq.symm.trans hk0
        simp only [alookup]
        rw [if_pos hq, if_pos hqk, if_pos hk0]
        rfl
      · have hqk : ¬q = k := fun h => hq (hk0.trans h.symm)
        simp only [alookup]
        rw [if_neg hq, ih, if_neg hqk, if_neg hqk, if_neg hq]
    · have hhead : List.map (fun kv : κ × ν => if kv.1 = k then (kv.1, v) else kv)
          ((k0, v0) :: rest) =
          (k0, v0) :: rest.map (fun kv => if kv.1 = k then (kv.1, v) else kv) := by
        rw [List.map_cons]
        congr 1
        show (if k0 = k then (k0, v) else (k0, v0)) = (k0, v0)
        rw [if_neg hk0]
      rw [hhead]
      by_cases hq : k0 = q
      · have hqk : ¬q = k := fun h => hk0 (hq.trans h)
        simp only [alookup]
        rw [if_pos hq, if_neg hqk, if_pos hq]
      · simp only [alookup]
        rw [if_neg hq, ih]
        by_cases hqk : q = k
        · rw [if_pos hqk, if_pos hqk, if_neg hk0]
        · rw [if_neg hqk, if_neg hqk, if_neg hq]

theorem add_binding_by_ok_spec {w w' : WalkerCrate} {cs : RelativePath}
    {tag : NamespaceTag} {name : Ident} {target : AbsolutePath}
    {vis : Visibility} {prio : Priority}
    (hok : Walker.add_binding_by w cs tag name target vis prio = (w', .ok ())) :
    w'.items = w.items ∧ w'.id = w.id ∧
    (∃ sc', alookup w'.scopes cs = some sc' ∧
      alookup sc'.bindings (tag, name) = some ⟨target, vis, prio⟩) ∧
    (∀ q, q ≠ cs → alookup w'.scopes q = alookup w.scopes q) ∧
    (∀ sc0, alookup w.scopes cs = some sc0 →
      ∀ key b0, alookup sc0.bindings key = some b0 → b0.priority = .Explicit →
        ∃ sc', alookup w'.scopes cs = some sc' ∧
          alookup sc'.bindings key = some b0) := by
  cases hsc : alookup w.scopes cs with
  | none =>
    simp only [Walker.add_binding_by, hsc] at hok
    exact absurd (congrArg Prod.snd hok) (by simp)
  | some sc =>
    simp only [Walker.add_binding_by, hsc] at hok
    cases hins : sc.insert_by tag name target vis prio with
    | error e =>
      rw [hins] at hok
      exact absurd (congrArg Prod.snd hok) (by simp)
    | ok sc' =>
      rw [hins] at hok
      have hw' : w' = w.setScope cs sc' := (congrArg Prod.fst hok).symm
      subst hw'
      have hlook : ∀ q, alookup (w.setScope cs sc').scopes q =
          if q = cs then some sc' else alookup w.scopes q := by
        intro q
        show alookup (w.scopes.map _) q = _
        rw [alookup_map_replace w.scopes cs sc' q]
        by_cases hq : q = cs
        · simp [hq, hsc]
        · simp [hq]
      have hentry : ∃ bs,
          scopeInsertEntry (tag, name) ⟨target, vis, prio⟩ sc.bindings =
            .ok bs ∧ sc' = ⟨bs⟩ := by
        simp only [Scope.insert_by] at hins
        cases he : scopeInsertEntry (tag, name) ⟨target, vis, prio⟩ sc.bindings with
        | error e => rw [he] at hins; cases hins
        | ok bs =>
          rw [he] at hins
          cases hins
          exact ⟨bs, rfl, rfl⟩
      obtain ⟨bs, hbs, hsc'bs⟩ := hentry
      subst hsc'bs
      refine ⟨rfl, rfl, ?_, ?_, ?_⟩
      · refine ⟨⟨bs⟩, by rw [hlook cs]; simp, ?_⟩
        cases hkey : alookup sc.bindings (tag, name) with
        | none =>
          rw [scopeInsertEntry_vacant _ hkey] at hbs
          cases hbs
          rw [alookup_append_right hkey]
          simp [alookup]
        | some oldb =>
          by_cases hcond : oldb.priority = Priority.Glob ∧
              (ScopeBinding.mk target vis prio).priority = Priority.Explicit
          · obtain ⟨l', hl', hlk⟩ :=
              scopeInsertEntry_displace ⟨target, vis, prio⟩ hkey hcond.1 hcond.2
            rw [hl'] at hbs
            cases hbs
            rw [hlk (tag, name)]
            simp
          · rw [scopeInsertEntry_occupied _ hkey hcond] at hbs
            cases hbs
      · intro q hq
        rw [hlook q, if_neg hq]
      · intro sc0 hsc0 key b0 hb0 hexp
        injection hsc0 with hsc0
        subst hsc0
        refine ⟨⟨bs⟩, by rw [hlook cs]; simp, ?_⟩
        cases hkey : alookup sc.bindings (tag, name) with
        | none =>
          rw [scopeInsertEntry_vacant _ hkey] at hbs
          cases hbs
          exact alookup_append_left hb0
        | some oldb =>
          by_cases hcond : oldb.priority = Priority.Glob ∧
              (ScopeBinding.mk target vis prio).priority = Priority.Explicit
          · obtain ⟨l', hl', hlk⟩ :=
              scopeInsertEntry_displace ⟨target, vis, prio⟩ hkey hcond.1 hcond.2
            rw [hl'] at hbs
            cases hbs
            have hkne : key ≠ (tag, name) := by
              intro hc
              subst hc
              rw [hb0] at hkey
              cases hkey
              rw [hcond.1] at hexp
              exact absurd hexp (by simp)
            rw [hlk key, if_neg hkne]
            exact hb0
          · rw [scopeInsertEntry_occupied _ hkey hcond] at hbs
            cases hbs

theorem walker_addBindingBy_preserves_inv {w w' : WalkerCrate}
    {cs : RelativePath} {tag : NamespaceTag} {name : Ident}
    {target : AbsolutePath} {vis : Visibility} {prio : Priority}
    (hinv : WalkerSelfBindingInv w)
    (hok : Walker.add_binding_by w cs tag name target vis prio = (w', .ok ())) :
    WalkerSelfBindingInv w' := by
  obtain ⟨hitems, hid, _, hother, hsurv⟩ := add_binding_by_ok_spec hok
  intro p i hmem
  rw [hitems] at hmem
  obtain ⟨containing, tag0, sc0, b0, hsplit, hscope, hbind, hprio, hident, hvis⟩ :=
    hinv p i hmem
  by_cases hc : containing = cs
  · subst hc
    obtain ⟨sc', hsc', hb'⟩ := hsurv sc0 hscope (tag0, i.name) b0 hbind hprio
    exact ⟨containing, tag0, sc', b0, hsplit, hsc', hb', hprio,
      by rw [hid]; exact hident, hvis⟩
  · exact ⟨containing, tag0, sc0, b0, hsplit,
      by rw [hother containing hc]; exact hscope, hbind, hprio,
      by rw [hid]; exact hident, hvis⟩

theorem walker_add_preserves_inv {w : WalkerCrate} {tag : NamespaceTag}
    {cs : RelativePath} {item : WalkerItemData} {w' : WalkerCrate}
    {p : RelativePath}
    (hinv : WalkerSelfBindingInv w)
    (hok : Walker.add w tag cs item = (w', .ok p)) :
    WalkerSelfBindingInv w' := by
  cases hvac : alookup w.items (cs ++ [item.name]) with
  | some _ =>
    simp only [Walker.add, hvac] at hok
    exact absurd (congrArg Prod.snd hok) (by simp)
  | none =>
    simp only [Walker.add, hvac] at hok
    cases hbb : Walker.add_binding_by
        { w with items := w.items ++ [(cs ++ [item.name], item)] } cs tag
        item.name (AbsolutePath.mk w.id (cs ++ [item.name])) item.visibility
        .Explicit with
    | mk w'' r =>
      rw [hbb] at hok
      cases r with
      | error e => exact absurd (congrArg Prod.snd hok) (by simp)
      | ok u =>
        cases u
        have hw' : w' = w'' := (congrArg Prod.fst hok).symm
        subst hw'
        obtain ⟨hitems, hid, ⟨scN, hscN, hbN⟩, hother, hsurv⟩ :=
          add_binding_by_ok_spec hbb
        intro p0 i0 hmem
        rw [hitems] at hmem
        simp only [List.mem_append, List.mem_singleton] at hmem
        rcases hmem with hmem | hmem
        · obtain ⟨containing, tag0, sc0, b0, hsplit, hscope, hbind, hprio,
            hident, hvis⟩ := hinv p0 i0 hmem
          by_cases hc : containing = cs
          · subst hc
            obtain ⟨sc', hsc', hb'⟩ :=
              hsurv sc0 hscope (tag0, i0.name) b0 hbind hprio
            exact ⟨containing, tag0, sc', b0, hsplit, hsc', hb', hprio,
              by rw [hid]; exact hident, hvis⟩
          · exact ⟨containing, tag0, sc0, b0, hsplit,
              by rw [hother containing hc]; exact hscope, hbind, hprio,
              by rw [hid]; exact hident, hvis⟩
        · injection hmem with hp0 hi0
          subst hp0; subst hi0
          refine ⟨cs, tag, scN, ⟨AbsolutePath.mk w.id (cs ++ [i0.name]),
            i0.visibility, .Explicit⟩, rfl, hscN, hbN, rfl, ?_, rfl⟩
          rw [hid]

theorem walker_addScope_preserves_inv {w : WalkerCrate} {tag : NamespaceTag}
    {cs : RelativePath} {name : Ident} {vis : Visibility} {w' : WalkerCrate}
    {p : RelativePath}
    (hinv : WalkerSelfBindingInv w)
    (hok : Walker.addScope w tag cs name vis = (w', .ok p)) :
    WalkerSelfBindingInv w' := by
  cases hvac : alookup w.scopes (cs ++ [name]) with
  | some _ =>
    simp only [Walker.addScope, hvac] at hok
    exact absurd (congrArg Prod.snd hok) (by simp)
  | none =>
    simp only [Walker.addScope, hvac] at hok
    cases hbb : Walker.add_binding_by
        { w with scopes := w.scopes ++ [(cs ++ [name], ⟨[]⟩)] } cs tag
        name (AbsolutePath.mk w.id (cs ++ [name])) vis .Explicit with
    | mk w'' r =>
      rw [hbb] at hok
      cases r with
      | error e => exact absurd (congrArg Prod.snd hok) (by simp)
      | ok u =>
        cases u
        have hw' : w' = w'' := (congrArg Prod.fst hok).symm
        subst hw'
        obtain ⟨hitems, hid, _, hother, hsurv⟩ := add_binding_by_ok_spec hbb
        intro p0 i0 hmem
        rw [hitems] at hmem
        obtain ⟨containing, tag0, sc0, b0, hsplit, hscope, hbind, hprio,
          hident, hvis⟩ := hinv p0 i0 hmem
        have hscope1 : alookup
            ({ w with scopes := w.scopes ++ [(cs ++ [name], ⟨[]⟩)] } :
              WalkerCrate).scopes containing = some sc0 :=
          alookup_append_left hscope
        by_cases hc : containing = cs
        · subst hc
          obtain ⟨sc', hsc', hb'⟩ :=
            hsurv sc0 hscope1 (tag0, i0.name) b0 hbind hprio
          exact ⟨containing, tag0, sc', b0, hsplit, hsc', hb', hprio,
            by rw [hid]; exact hident, hvis⟩
        · exact ⟨containing, tag0, sc0, b0, hsplit,
            by rw [hother containing hc]; exact hscope1, hbind, hprio,
            by rw [hid]; exact hident, hvis⟩

theorem walker_add_root_scope_preserves_inv {w w' : WalkerCrate}
    {p : RelativePath}
    (hinv : WalkerSelfBindingInv w)
    (hok : Walker.add_root_scope w = (w', .ok p)) :
    WalkerSelfBindingInv w' := by
  cases hvac : alookup w.scopes [] with
  | some _ =>
    simp only [Walker.add_root_scope, hvac] at hok
    exact absurd (congrArg Prod.snd hok) (by simp)
  | none =>
    simp only [Walker.add_root_scope, hvac] at hok
    have hw' : w' = { w with scopes := w.scopes ++ [([], ⟨[]⟩)] } :=
      (congrArg Prod.fst hok).symm
    subst hw'
    intro p0 i0 hmem
    obtain ⟨containing, tag0, sc0, b0, hsplit, hscope, hbind, hprio,
      hident, hvis⟩ := hinv p0 i0 hmem
    exact ⟨containing, tag0, sc0, b0, hsplit, alookup_append_left hscope,
      hbind, hprio, hident, hvis⟩

theorem applyWalkerOps_inv :
    ∀ (ops : List WalkerOp) (w w' : WalkerCrate),
      WalkerSelfBindingInv w → applyWalkerOps w ops = (w', true) →
      WalkerSelfBindingInv w' := by
  intro ops
  induction ops with
  | nil =>
    intro w w' hinv hops
    simp only [applyWalkerOps, Prod.mk.injEq] at hops
    exact hops.1 ▸ hinv
  | cons op rest ih =>
    intro w w' hinv hops
    simp only [applyWalkerOps, Prod.mk.injEq, Bool.and_eq_true] at hops
    obtain ⟨h1, hflag, h2⟩ := hops
    have hstep : (applyWalkerOp w op).2 = .ok () := by
      cases h : (applyWalkerOp w op).2 with
      | ok u => cases u; rfl
      | error e => rw [h] at hflag; simp at hflag
    have hnext : applyWalkerOps (applyWalkerOp w op).1 rest = (w', true) := by
      rw [Prod.ext_iff]
      exact ⟨h1, h2⟩
    have hinv' : WalkerSelfBindingInv (applyWalkerOp w op).1 := by
      cases op with
      | addRootScope =>
        have hm : (Walker.add_root_scope w).2.map (fun _ => ()) = .ok () := hstep
        cases hr : (Walker.add_root_scope w).2 with
        | error e => rw [hr] at hm; cases hm
        | ok pth =>
          exact walker_add_root_scope_preserves_inv hinv (Prod.ext rfl hr)
      | addScope tag cs name vis =>
        have hm : (Walker.addScope w tag cs name vis).2.map (fun _ => ()) =
            .ok () := hstep
        cases hr : (Walker.addScope w tag cs name vis).2 with
        | error e => rw [hr] at hm; cases hm
        | ok pth =>
          exact walker_addScope_preserves_inv hinv (Prod.ext rfl hr)
      | addItem tag cs item =>
        have hm : (Walker.add w tag cs item).2.map (fun _ => ()) = .ok () :=
          hstep
        cases hr : (Walker.add w tag cs item).2 with
        | error e => rw [hr] at hm; cases hm
        | ok pth =>
          exact walker_add_preserves_inv hinv (Prod.ext rfl hr)
      | addBindingBy cs tag name target vis prio =>
        exact walker_addBindingBy_preserves_inv hinv (Prod.ext rfl hstep)
    exact ih _ _ hinv' hnext

/-- C4: any store built from empty through the public insertion operations,
with every call succeeding, satisfies the self-binding invariant: each stored
item has an `Explicit` self-binding at its defining path, targeting its
defining identity, with the item's own visibility.  This holds both for the
database operations (`CrateNamespace.add_item` / `add_binding`) and for the
walker operations (`Walker.add_root_scope` / `addScope` / `add` /
`add_binding_by`).  Inserting a second item at an occupied defining path —
through `CrateNamespace.add_item` or through `Walker.add` — fails with
`ItemAlreadyPresent` and leaves the store untouched. -/
theorem C4_items_have_self_bindings (crate_ : CrateId) (ops : List (NsOp Item))
    (ns' : CrateNamespace Item)
    (hops : applyNsOps (CrateNamespace.new crate_) ops = (ns', true))
    (ns₂ : CrateNamespace Item) (path₂ : RelativePath) (item₂ old₂ : Item)
    (hocc : alookup ns₂.items path₂ = some old₂)
    (crate_id : CrateId) (wops : List WalkerOp) (w' : WalkerCrate)
    (hwops : applyWalkerOps (WalkerCrate.mk crate_id [] []) wops = (w', true))
    (w₂ : WalkerCrate) (tag₂ : NamespaceTag) (cs₂ : RelativePath)
    (witem₂ wold₂ : WalkerItemData)
    (hwocc : alookup w₂.items (cs₂ ++ [witem₂.name]) = some wold₂) :
    SelfBindingInv ns' ∧
    ns₂.add_item path₂ item₂ = (ns₂, .error .ItemAlreadyPresent) ∧
    WalkerSelfBindingInv w' ∧
    Walker.add w₂ tag₂ cs₂ witem₂ = (w₂, .error .ItemAlreadyPresent) := by
  refine ⟨?_, ?_, ?_, ?_⟩
  · refine applyNsOps_inv ops _ ns' ?_ hops
    intro p i hmem
    exact absurd hmem (by simp [CrateNamespace.new])
  · simp [CrateNamespace.add_item, hocc]
  · refine applyWalkerOps_inv wops _ w' ?_ hwops
    intro p i hmem
    exact absurd hmem (by simp)
  · simp [Walker.add, hwocc]

/-- Witness for C4: one successful `add_item` produces a database store
satisfying the invariant, a root scope plus one successful `Walker.add`
produce a walker store satisfying the invariant, and re-inserting at either
occupied path fails without changes. -/
theorem C4_items_have_self_bindings_witness :
    SelfBindingInv (CrateNamespace.mk (I := Item) ⟨"c", "1"⟩
      [(["a"], ⟨⟨.Pub, none, none, none, [], ⟨"f", 0⟩⟩⟩)]
      [(["a"], ⟨⟨⟨"c", "1"⟩, ["a"]⟩, .Pub, .Explicit⟩)]) ∧
    (CrateNamespace.mk (I := Item) ⟨"c", "1"⟩
      [(["a"], ⟨⟨.Pub, none, none, none, [], ⟨"f", 0⟩⟩⟩)]
      [(["a"], ⟨⟨⟨"c", "1"⟩, ["a"]⟩, .Pub, .Explicit⟩)]).add_item ["a"]
        ⟨⟨.NonPub, none, none, none, [], ⟨"g", 0⟩⟩⟩ =
      (CrateNamespace.mk (I := Item) ⟨"c", "1"⟩
        [(["a"], ⟨⟨.Pub, none, none, none, [], ⟨"f", 0⟩⟩⟩)]
        [(["a"], ⟨⟨⟨"c", "1"⟩, ["a"]⟩, .Pub, .Explicit⟩)],
       .error .ItemAlreadyPresent) ∧
    WalkerSelfBindingInv (WalkerCrate.mk ⟨"c", "1"⟩ [(["x"], ⟨"x", .Pub⟩)]
      [([], ⟨[((.typeNs, "x"),
        ⟨⟨⟨"c", "1"⟩, ["x"]⟩, .Pub, .Explicit⟩)]⟩)]) ∧
    Walker.add (WalkerCrate.mk ⟨"c", "1"⟩ [(["x"], ⟨"x", .Pub⟩)]
        [([], ⟨[((.typeNs, "x"),
          ⟨⟨⟨"c", "1"⟩, ["x"]⟩, .Pub, .Explicit⟩)]⟩)])
        .typeNs [] ⟨"x", .NonPub⟩ =
      (WalkerCrate.mk ⟨"c", "1"⟩ [(["x"], ⟨"x", .Pub⟩)]
        [([], ⟨[((.typeNs, "x"),
          ⟨⟨⟨"c", "1"⟩, ["x"]⟩, .Pub, .Explicit⟩)]⟩)],
       .error .ItemAlreadyPresent) :=
  C4_items_have_self_bindings ⟨"c", "1"⟩
    [.addItem ["a"] ⟨⟨.Pub, none, none, none, [], ⟨"f", 0⟩⟩⟩]
    (CrateNamespace.mk ⟨"c", "1"⟩
      [(["a"], ⟨⟨.Pub, none, none, none, [], ⟨"f", 0⟩⟩⟩)]
      [(["a"], ⟨⟨⟨"c", "1"⟩, ["a"]⟩, .Pub, .Explicit⟩)])
    rfl
    (CrateNamespace.mk ⟨"c", "1"⟩
      [(["a"], ⟨⟨.Pub, none, none, none, [], ⟨"f", 0⟩⟩⟩)]
      [(["a"], ⟨⟨⟨"c", "1"⟩, ["a"]⟩, .Pub, .Explicit⟩)])
    ["a"] ⟨⟨.NonPub, none, none, none, [], ⟨"g", 0⟩⟩⟩
    ⟨⟨.Pub, none, none, none, [], ⟨"f", 0⟩⟩⟩ rfl
    ⟨"c", "1"⟩ [.addRootScope, .addItem .typeNs [] ⟨"x", .Pub⟩]
    (WalkerCrate.mk ⟨"c", "1"⟩ [(["x"], ⟨"x", .Pub⟩)]
      [([], ⟨[((.typeNs, "x"),
        ⟨⟨⟨"c", "1"⟩, ["x"]⟩, .Pub, .Explicit⟩)]⟩)])
    rfl
    (WalkerCrate.mk ⟨"c", "1"⟩ [(["x"], ⟨"x", .Pub⟩)]
      [([], ⟨[((.typeNs, "x"),
        ⟨⟨⟨"c", "1"⟩, ["x"]⟩, .Pub, .Explicit⟩)]⟩)])
    .typeNs [] ⟨"x", .NonPub⟩ ⟨"x", .Pub⟩ rfl

/-! ### Claim theorems: lowering -/

/-- C7: the lowered calling convention is `Rust` with no extern marker, `C`
for a bare `extern`, `C` for `extern "C"`, `Rust` for `extern "Rust"`, and
`Other(s)` for any other ABI string `s`. -/
theorem C7_lower_signature_abi (sig : SynSignature) (s : String)
    (hs₁ : s ≠ "Rust") (hs₂ : s ≠ "C") :
    (lower_signature { sig with abi := none }).abi = Abi.Rust ∧
    (lower_signature { sig with abi := some ⟨none⟩ }).abi = Abi.C ∧
    (lower_signature { sig with abi := some ⟨some "C"⟩ }).abi = Abi.C ∧
    (lower_signature { sig with abi := some ⟨some "Rust"⟩ }).abi = Abi.Rust ∧
    (lower_signature { sig with abi := some ⟨some s⟩ }).abi = Abi.Other s := by
  refine ⟨rfl, rfl, by simp [lower_signature, lowerAbi], rfl, ?_⟩
  simp [lower_signature, lowerAbi, hs₁, hs₂]

/-- Witness for C7 at the ABI string `"system"`. -/
theorem C7_lower_signature_abi_witness :
    (lower_signature ⟨some ⟨some "system"⟩, false, false, false, false⟩).abi =
      Abi.Other "system" :=
  (C7_lower_signature_abi ⟨some ⟨some "system"⟩, false, false, false, false⟩
    "system" (by decide) (by decide)).2.2.2.2

theorem lowerVariants_visibility (loc : ModuleCtx) (enumVis : SynVisibility) :
    ∀ (variants : List SynVariant) (out : List EnumVariant),
      lowerVariants loc enumVis variants = .ok out →
      ∀ ev ∈ out,
        ev.metadata.visibility = lowerSynVisibility loc.visibility enumVis := by
  intro variants
  induction variants with
  | nil =>
    intro out h ev hmem
    simp only [lowerVariants] at h
    cases h
    simp at hmem
  | cons variant rest ih =>
    intro out h ev hmem
    simp only [lowerVariants, bind, Except.bind] at h
    cases hf : lower_fields loc variant.fields with
    | error e => rw [hf] at h; cases h
    | ok fields =>
      rw [hf] at h
      cases hr : lowerVariants loc enumVis rest with
      | error e => rw [hr] at h; cases h
      | ok rest' =>
        rw [hr] at h
        simp only [pure, Except.pure] at h
        cases h
        rcases List.mem_cons.mp hmem with hev | hev
        · subst hev; rfl
        · exact ih rest' hr ev hev

/-- C8: a public keyword lowers to `Pub`, no keyword inherits the containing
module's visibility, any other keyword lowers to `NonPub`; and every variant
of a lowered enum carries the visibility lowered from the parent enum's
declared visibility. -/
theorem C8_visibility_lowering (module : ModuleCtx) (attributes : List Attribute)
    (span : SynSpan) (v : SynVisibility)
    (hv : v = .Crate ∨ v = .Restricted)
    (loc : ModuleCtx) (enum_ : SynItemEnum) (out : EnumItem)
    (hout : lower_enum loc enum_ = .ok out) :
    (lower_metadata module .Public attributes span).visibility = .Pub ∧
    (lower_metadata module .Inherited attributes span).visibility =
      module.visibility ∧
    (lower_metadata module v attributes span).visibility = .NonPub ∧
    ∀ ev ∈ out.variants,
      ev.metadata.visibility = lowerSynVisibility loc.visibility enum_.vis := by
  refine ⟨rfl, rfl, ?_, ?_⟩
  · rcases hv with hv | hv <;> subst hv <;> rfl
  · intro ev hmem
    simp only [lower_enum, bind, Except.bind] at hout
    cases hvs : lowerVariants loc enum_.vis enum_.variants with
    | error e => rw [hvs] at hout; cases hout
    | ok vs =>
      rw [hvs] at hout
      simp only [pure, Except.pure] at hout
      cases hout
      exact lowerVariants_visibility loc enum_.vis enum_.variants vs hvs ev hmem

/-- Witness for C8: a `pub enum` with one unit variant in a non-public
module; the variant's metadata visibility is the enum's lowered (public)
visibility. -/
theorem C8_visibility_lowering_witness :
    (lower_metadata ⟨"f.rs", .NonPub⟩ .Public [] 0).visibility = .Pub ∧
    (lower_metadata ⟨"f.rs", .NonPub⟩ .Inherited [] 0).visibility =
      Visibility.NonPub ∧
    (lower_metadata ⟨"f.rs", .NonPub⟩ .Crate [] 0).visibility = .NonPub ∧
    ∀ ev ∈ (EnumItem.mk ⟨.Pub, none, none, none, [], ⟨"f.rs", 0⟩⟩ "E"
        [⟨⟨.Pub, none, none, none, [], ⟨"f.rs", 0⟩⟩, .Unit, [], "V"⟩]).variants,
      ev.metadata.visibility = lowerSynVisibility Visibility.NonPub .Public :=
  C8_visibility_lowering ⟨"f.rs", .NonPub⟩ [] 0 .Crate (Or.inl rfl)
    ⟨"f.rs", .NonPub⟩ ⟨"E", .Public, [], [⟨"V", [], .Unit, 0⟩], 0⟩
    ⟨⟨.Pub, none, none, none, [], ⟨"f.rs", 0⟩⟩, "E",
      [⟨⟨.Pub, none, none, none, [], ⟨"f.rs", 0⟩⟩, .Unit, [], "V"⟩]⟩ rfl

theorem foldl_docs_component (attrs : List Attribute) :
    ∀ st : MetaLoopState,
      (attrs.foldl lowerMetadataStep st).1 =
        (attrs.filterMap docStringOf).foldl (fun _ s => some s) st.1 := by
  induction attrs with
  | nil => intro st; rfl
  | cons attr rest ih =>
    intro st
    obtain ⟨docs, must_use, deprecated, extra⟩ := st
    by_cases hd : attr.path = DOCS
    · simp only [List.foldl_cons, List.filterMap_cons, docStringOf, if_pos hd,
        lowerMetadataStep, ih]
    · by_cases hm : attr.path = MUST_USE
      · simp only [List.foldl_cons, List.filterMap_cons, docStringOf,
          if_neg hd, lowerMetadataStep, if_pos hm, ih]
      · by_cases hdep : attr.path = DEPRECATED
        · simp only [List.foldl_cons, List.filterMap_cons, docStringOf,
            if_neg hd, if_neg hm, lowerMetadataStep, if_pos hdep, ih]
        · simp only [List.foldl_cons, List.filterMap_cons, docStringOf,
            if_neg hd, if_neg hm, if_neg hdep, lowerMetadataStep, ih]

theorem foldl_some_getLastD (l : List String) :
    ∀ s : String, l.foldl (fun _ x => some x) (some s) = some (l.getLastD s) := by
  induction l with
  | nil => intro s; rfl
  | cons a rest ih =>
    intro s
    simp only [List.foldl_cons, ih a, List.getLastD_cons]

/-- C9 (amended): with several `doc` attributes, `lower_metadata` keeps only
the *last* one's string value (the loop overwrites `docs`); the lowered
`docs` field is the last doc attribute's string, not a join. -/
theorem C9_docs_amended (module : ModuleCtx) (visibility : SynVisibility)
    (attributes : List Attribute) (span : SynSpan) :
    (lower_metadata module visibility attributes span).docs =
      (attributes.filterMap docStringOf).getLast? := by
  show (attributes.foldl lowerMetadataStep (none, none, none, [])).1 =
    (attributes.filterMap docStringOf).getLast?
  rw [foldl_docs_component]
  cases hl : attributes.filterMap docStringOf with
  | nil => rfl
  | cons a rest =>
    simp only [List.foldl_cons, foldl_some_getLastD, List.getLast?_cons,
      List.getLastD_eq_getLast?]

/-- C9 counterexample: with two doc attributes (strings `"a"` then `"b"`),
the lowered docs are exactly `"b"`; the first string is discarded, not
joined (under any of the plausible join conventions). -/
theorem C9_docs_counterexample :
    (lower_metadata ⟨"f.rs", .Pub⟩ .Public
      [Attribute.Meta (.Assign DOCS (.Str "a")),
       Attribute.Meta (.Assign DOCS (.Str "b"))] 0).docs = some "b" ∧
    some "b" ≠ some ("a" ++ "b") ∧
    some "b" ≠ some ("a" ++ "\n" ++ "b") ∧
    some "b" ≠ some ("a" ++ " " ++ "b") := by
  refine ⟨rfl, by decide, by decide, by decide⟩

theorem isVisibleFrom_spec (modB : List (RelativePath × Binding)) :
    ∀ (l : List Ident) (cur : RelativePath),
      (∀ i, i < l.length → (alookup modB (cur ++ l.take (i+1))).isSome) →
      (isVisibleFrom modB cur l = some true ↔
        ∀ i, i < l.length → ∀ b, alookup modB (cur ++ l.take (i+1)) = some b →
          b.visibility ≠ Visibility.NonPub) := by
  intro l
  induction l with
  | nil =>
    intro cur _
    simp [isVisibleFrom]
  | cons e rest ih =>
    intro cur hpres
    have h0 := hpres 0 (by simp)
    have htake0 : (e :: rest).take (0 + 1) = [e] := rfl
    rw [htake0] at h0
    obtain ⟨b, hb⟩ := Option.isSome_iff_exists.mp h0
    have hcons : isVisibleFrom modB cur (e :: rest) =
        if b.visibility = Visibility.NonPub then some false
        else isVisibleFrom modB (cur ++ [e]) rest := by
      simp [isVisibleFrom, hb]
    have hshift : ∀ i, cur ++ (e :: rest).take (i + 1 + 1) =
        (cur ++ [e]) ++ rest.take (i + 1) := by
      intro i
      rw [List.take_succ_cons, List.append_cons]
    by_cases hvis : b.visibility = Visibility.NonPub
    · rw [hcons, if_pos hvis]
      constructor
      · intro h; cases h
      · intro hrhs
        exact absurd hvis (hrhs 0 (by simp) b (by simpa using hb))
    · rw [hcons, if_neg hvis]
      have hpres' : ∀ i, i < rest.length →
          (alookup modB ((cur ++ [e]) ++ rest.take (i+1))).isSome := by
        intro i hi
        have := hpres (i + 1) (by simpa using Nat.succ_lt_succ hi)
        rwa [hshift i] at this
      rw [ih (cur ++ [e]) hpres']
      constructor
      · intro h i hi b' hb'
        cases i with
        | zero =>
          rw [htake0] at hb'
          rw [hb] at hb'
          cases hb'
          exact hvis
        | succ j =>
          rw [hshift j] at hb'
          exact h j (by simpa using Nat.lt_of_succ_lt_succ hi) b' hb'
      · intro h i hi b' hb'
        rw [← hshift i] at hb'
        exact h (i + 1) (by simpa using Nat.succ_lt_succ hi) b' hb'

theorem isVisibleFrom_false_append (modB : List (RelativePath × Binding)) :
    ∀ (l : List Ident) (cur : RelativePath) (rest : List Ident),
      isVisibleFrom modB cur l = some false →
      isVisibleFrom modB cur (l ++ rest) = some false := by
  intro l
  induction l with
  | nil =>
    intro cur rest h
    cases h
  | cons e tail ih =>
    intro cur rest h
    cases hb : alookup modB (cur ++ [e]) with
    | none =>
      have hnone : isVisibleFrom modB cur (e :: tail) = none := by
        simp [isVisibleFrom, hb]
      rw [hnone] at h; cases h
    | some b =>
      have heq : isVisibleFrom modB cur (e :: tail) =
          if b.visibility = Visibility.NonPub then some false
          else isVisibleFrom modB (cur ++ [e]) tail := by
        simp [isVisibleFrom, hb]
      have heq2 : isVisibleFrom modB cur ((e :: tail) ++ rest) =
          if b.visibility = Visibility.NonPub then some false
          else isVisibleFrom modB (cur ++ [e]) (tail ++ rest) := by
        simp [isVisibleFrom, hb]
      rw [heq] at h
      rw [heq2]
      by_cases hvis : b.visibility = Visibility.NonPub
      · rw [if_pos hvis]
      · rw [if_neg hvis] at h ⊢
        exact ih (cur ++ [e]) rest h

/-- C5: given that every prefix of the module path has a module binding, the
module is externally visible iff no binding on the chain from the root down
to it is `NonPub` (so `InScope` counts as public); and the first `NonPub`
prefix makes the entire subtree invisible. -/
theorem C5_module_visibility_walk (crate_db : CrateDb) (mod_ : RelativePath)
    (hpres : ∀ i, i < mod_.length →
      (alookup crate_db.modules.bindings (mod_.take (i+1))).isSome) :
    (crate_db.is_module_externally_visible mod_ = some true ↔
      ∀ i, i < mod_.length → ∀ b,
        alookup crate_db.modules.bindings (mod_.take (i+1)) = some b →
        b.visibility ≠ Visibility.NonPub) ∧
    (crate_db.is_module_externally_visible mod_ = some false →
      ∀ rest, crate_db.is_module_externally_visible (mod_ ++ rest) = some false) := by
  constructor
  · have h := isVisibleFrom_spec crate_db.modules.bindings mod_ []
      (by simpa using hpres)
    simpa [CrateDb.is_module_externally_visible] using h
  · intro hfalse rest
    exact isVisibleFrom_false_append crate_db.modules.bindings mod_ [] rest hfalse

/-- Witness for C5: a single `NonPub` module binding at `["m"]`. -/
theorem C5_module_visibility_walk_witness :
    ((CrateDb.mk ⟨"c", "1"⟩ (CrateNamespace.new ⟨"c", "1"⟩)
        (CrateNamespace.new ⟨"c", "1"⟩) (CrateNamespace.new ⟨"c", "1"⟩)
        (CrateNamespace.mk ⟨"c", "1"⟩ []
          [(["m"], ⟨⟨⟨"c", "1"⟩, ["m"]⟩, .NonPub, .Explicit⟩)])).is_module_externally_visible
      ["m"] = some true ↔
      ∀ i, i < (["m"] : RelativePath).length → ∀ b,
        alookup (CrateDb.mk ⟨"c", "1"⟩ (CrateNamespace.new ⟨"c", "1"⟩)
          (CrateNamespace.new ⟨"c", "1"⟩) (CrateNamespace.new ⟨"c", "1"⟩)
          (CrateNamespace.mk ⟨"c", "1"⟩ []
            [(["m"], ⟨⟨⟨"c", "1"⟩, ["m"]⟩, .NonPub, .Explicit⟩)])).modules.bindings
          ((["m"] : RelativePath).take (i+1)) = some b →
        b.visibility ≠ Visibility.NonPub) ∧
    ((CrateDb.mk ⟨"c", "1"⟩ (CrateNamespace.new ⟨"c", "1"⟩)
        (CrateNamespace.new ⟨"c", "1"⟩) (CrateNamespace.new ⟨"c", "1"⟩)
        (CrateNamespace.mk ⟨"c", "1"⟩ []
          [(["m"], ⟨⟨⟨"c", "1"⟩, ["m"]⟩, .NonPub, .Explicit⟩)])).is_module_externally_visible
      ["m"] = some false →
      ∀ rest, (CrateDb.mk ⟨"c", "1"⟩ (CrateNamespace.new ⟨"c", "1"⟩)
        (CrateNamespace.new ⟨"c", "1"⟩) (CrateNamespace.new ⟨"c", "1"⟩)
        (CrateNamespace.mk ⟨"c", "1"⟩ []
          [(["m"], ⟨⟨⟨"c", "1"⟩, ["m"]⟩, .NonPub, .Explicit⟩)])).is_module_externally_visible
        (["m"] ++ rest) = some false) :=
  C5_module_visibility_walk
    (CrateDb.mk ⟨"c", "1"⟩ (CrateNamespace.new ⟨"c", "1"⟩)
      (CrateNamespace.new ⟨"c", "1"⟩) (CrateNamespace.new ⟨"c", "1"⟩)
      (CrateNamespace.mk ⟨"c", "1"⟩ []
        [(["m"], ⟨⟨⟨"c", "1"⟩, ["m"]⟩, .NonPub, .Explicit⟩)]))
    ["m"] (by decide)

/-- C6 counterexample: querying `accessible_items` for a package that is not
in the database panics (`.expect("no such crate")`, modelled `none`), and the
module-visibility walk panics on a missing module binding
(`.expect("checking missing module?")`) — neither returns the tagged
`NoSuchScope` error the claim promises for these lookups. -/
theorem C6_no_such_scope_counterexample :
    Db.accessible_items ⟨[]⟩ ⟨"a", "0"⟩ CrateDb.types = none ∧
    (CrateDb.mk ⟨"a", "0"⟩ (CrateNamespace.new ⟨"a", "0"⟩)
      (CrateNamespace.new ⟨"a", "0"⟩) (CrateNamespace.new ⟨"a", "0"⟩)
      (CrateNamespace.new ⟨"a", "0"⟩)).is_module_externally_visible ["m"] =
      none :=
  ⟨rfl, rfl⟩

/-- C6 (amended): adding a binding to a nonexistent scope does return the
tagged error `NoSuchScope` and leaves the walker state unchanged (the walker
logs and continues); but the lookups performed during accessibility queries
— a missing package in `accessible_items` and a missing module binding in
`is_module_externally_visible` — panic instead of returning `NoSuchScope`. -/
theorem C6_no_such_scope_amended (w : WalkerCrate) (containing_scope : RelativePath)
    (namespace_id : NamespaceTag) (name : Ident) (target : AbsolutePath)
    (visibility : Visibility) (priority : Priority)
    (hnoscope : alookup w.scopes containing_scope = none)
    (db : Db) (crate_ : CrateId) (getNs : CrateDb → CrateNamespace Item)
    (hmiss : alookup db.crates crate_ = none)
    (crate_db : CrateDb) (entry : Ident) (rest : List Ident)
    (hmb : alookup crate_db.modules.bindings [entry] = none) :
    Walker.add_binding_by w containing_scope namespace_id name target visibility
      priority = (w, .error .NoSuchScope) ∧
    Db.accessible_items db crate_ getNs = none ∧
    crate_db.is_module_externally_visible (entry :: rest) = none := by
  refine ⟨?_, ?_, ?_⟩
  · simp [Walker.add_binding_by, hnoscope]
  · simp [Db.accessible_items, hmiss]
  · simp [CrateDb.is_module_externally_visible, isVisibleFrom, hmb]

/-- Witness for the amended C6. -/
theorem C6_no_such_scope_amended_witness :
    Walker.add_binding_by ⟨⟨"c", "1"⟩, [], []⟩ ["m"] .typeNs "x"
      ⟨⟨"c", "1"⟩, ["m", "x"]⟩ .Pub .Explicit =
      (⟨⟨"c", "1"⟩, [], []⟩, .error .NoSuchScope) ∧
    Db.accessible_items ⟨[]⟩ ⟨"a", "0"⟩ CrateDb.types = none ∧
    (CrateDb.mk ⟨"a", "0"⟩ (CrateNamespace.new ⟨"a", "0"⟩)
      (CrateNamespace.new ⟨"a", "0"⟩) (CrateNamespace.new ⟨"a", "0"⟩)
      (CrateNamespace.new ⟨"a", "0"⟩)).is_module_externally_visible
      ("m" :: []) = none :=
  C6_no_such_scope_amended ⟨⟨"c", "1"⟩, [], []⟩ ["m"] .typeNs "x"
    ⟨⟨"c", "1"⟩, ["m", "x"]⟩ .Pub .Explicit rfl ⟨[]⟩ ⟨"a", "0"⟩ CrateDb.types rfl
    (CrateDb.mk ⟨"a", "0"⟩ (CrateNamespace.new ⟨"a", "0"⟩)
      (CrateNamespace.new ⟨"a", "0"⟩) (CrateNamespace.new ⟨"a", "0"⟩)
      (CrateNamespace.new ⟨"a", "0"⟩)) "m" [] rfl

theorem shouldReplaceB_iff (path cur : RelativePath) :
    shouldReplaceB path cur = true ↔
      path.length < cur.length ∨
        (path.length = cur.length ∧ pathLtB path cur = true) := by
  simp [shouldReplaceB]

theorem shouldReplaceB_strict : IsStrictTotalB shouldReplaceB := by
  constructor
  · intro a
    simp [shouldReplaceB, pathLtB_strict.irrefl]
  · intro a b h₁ h₂
    rw [← Bool.not_eq_true, shouldReplaceB_iff] at h₁ h₂
    push_neg at h₁ h₂
    obtain ⟨hlen₁, hlex₁⟩ := h₁
    obtain ⟨hlen₂, hlex₂⟩ := h₂
    have hlen : a.length = b.length := Nat.le_antisymm hlen₂ hlen₁
    exact pathLtB_strict.conn a b (by simpa using hlex₁ hlen)
      (by simpa using hlex₂ hlen.symm)
  · intro a b c h₁ h₂
    rw [shouldReplaceB_iff] at h₁ h₂ ⊢
    rcases h₁ with h₁ | ⟨hl₁, h₁⟩ <;> rcases h₂ with h₂ | ⟨hl₂, h₂⟩
    · exact Or.inl (Nat.lt_trans h₁ h₂)
    · exact Or.inl (hl₂ ▸ h₁)
    · exact Or.inl (hl₁ ▸ h₂)
    · exact Or.inr ⟨hl₁.trans hl₂, pathLtB_strict.trans a b c h₁ h₂⟩

theorem updateEntry_lookup_self (m : List (AbsolutePath × RelativePath))
    (tgt : AbsolutePath) (path : RelativePath) :
    alookup (updateEntry m tgt path) tgt = mergeBest (alookup m tgt) path := by
  induction m with
  | nil => simp [updateEntry, alookup, mergeBest]
  | cons kv rest ih =>
    obtain ⟨t, cur⟩ := kv
    by_cases ht : t = tgt
    · subst ht
      simp [updateEntry, alookup, mergeBest]
    · simp [updateEntry, alookup, ht, ih]

theorem updateEntry_lookup_ne (m : List (AbsolutePath × RelativePath))
    {tgt t' : AbsolutePath} (path : RelativePath) (h : t' ≠ tgt) :
    alookup (updateEntry m tgt path) t' = alookup m t' := by
  induction m with
  | nil => simp [updateEntry, alookup, Ne.symm h]
  | cons kv rest ih =>
    obtain ⟨t, cur⟩ := kv
    by_cases ht : t = tgt
    · subst ht
      simp [updateEntry, alookup, Ne.symm h]
    · by_cases ht' : t = t'
      · subst ht'; simp [updateEntry, ht, alookup]
      · simp [updateEntry, alookup, ht, ht', ih]

theorem updateEntry_keys (m : List (AbsolutePath × RelativePath))
    (tgt : AbsolutePath) (path : RelativePath) :
    (updateEntry m tgt path).map Prod.fst =
      if tgt ∈ m.map Prod.fst then m.map Prod.fst
      else m.map Prod.fst ++ [tgt] := by
  induction m with
  | nil => simp [updateEntry]
  | cons kv rest ih =>
    obtain ⟨t, cur⟩ := kv
    by_cases ht : t = tgt
    · subst ht
      simp [updateEntry]
    · simp only [updateEntry, if_neg ht, List.map_cons, ih]
      by_cases hmem : tgt ∈ rest.map Prod.fst
      · simp [hmem, Ne.symm ht]
      · simp [hmem, Ne.symm ht]

theorem accFold_eq_pure (db : CrateDb) :
    ∀ (l : List (RelativePath × Binding))
      (_ : ∀ pb ∈ l, bindingEligOpt db pb.1 pb.2 ≠ none)
      (m : List (AbsolutePath × RelativePath)),
      accFold db m l = some (accFoldPure db m l) := by
  intro l
  induction l with
  | nil => intro _ m; rfl
  | cons pb rest ih =>
    intro hpf m
    obtain ⟨path, binding⟩ := pb
    have hne := hpf (path, binding) (List.mem_cons_self _ _)
    have hrest : ∀ pb ∈ rest, bindingEligOpt db pb.1 pb.2 ≠ none :=
      fun pb hmem => hpf pb (List.mem_cons_of_mem _ hmem)
    cases he : bindingEligOpt db path binding with
    | none => exact absurd he hne
    | some e =>
      cases e with
      | true =>
        have h1 : accFold db m ((path, binding) :: rest) =
            accFold db (updateEntry m binding.absolute_target path) rest := by
          simp [accFold, he]
        have h2 : accFoldPure db m ((path, binding) :: rest) =
            accFoldPure db (updateEntry m binding.absolute_target path) rest := by
          simp [accFoldPure, he]
        rw [h1, h2]
        exact ih hrest _
      | false =>
        have h1 : accFold db m ((path, binding) :: rest) = accFold db m rest := by
          simp [accFold, he]
        have h2 : accFoldPure db m ((path, binding) :: rest) =
            accFoldPure db m rest := by
          simp [accFoldPure, he]
        rw [h1, h2]
        exact ih hrest _

theorem accFoldPure_lookup (db : CrateDb) :
    ∀ (l : List (RelativePath × Binding)) (m : List (AbsolutePath × RelativePath))
      (tgt : AbsolutePath),
      alookup (accFoldPure db m l) tgt =
        (candPaths db tgt l).foldl mergeBest (alookup m tgt) := by
  intro l
  induction l with
  | nil => intro m tgt; rfl
  | cons pb rest ih =>
    intro m tgt
    obtain ⟨path, binding⟩ := pb
    by_cases he : bindingEligOpt db path binding = some true
    · have h2 : accFoldPure db m ((path, binding) :: rest) =
          accFoldPure db (updateEntry m binding.absolute_target path) rest := by
        simp [accFoldPure, he]
      by_cases htgt : binding.absolute_target = tgt
      · have hmatch : eligMatchB db tgt (path, binding) = true := by
          simp [eligMatchB, he, htgt]
        have h3 : candPaths db tgt ((path, binding) :: rest) =
            path :: candPaths db tgt rest := by
          simp [candPaths, List.filter_cons, hmatch]
        rw [h2, ih, h3, htgt, updateEntry_lookup_self, List.foldl_cons]
      · have hmatch : eligMatchB db tgt (path, binding) = false := by
          simp [eligMatchB, htgt]
        have h3 : candPaths db tgt ((path, binding) :: rest) =
            candPaths db tgt rest := by
          simp [candPaths, List.filter_cons, hmatch]
        rw [h2, ih, h3, updateEntry_lookup_ne _ _ (fun hc => htgt hc.symm)]
    · have hmatch : eligMatchB db tgt (path, binding) = false := by
        simp [eligMatchB, he]
      have h2 : accFoldPure db m ((path, binding) :: rest) =
          accFoldPure db m rest := by
        simp [accFoldPure, he]
      have h3 : candPaths db tgt ((path, binding) :: rest) =
          candPaths db tgt rest := by
        simp [candPaths, List.filter_cons, hmatch]
      rw [h2, ih, h3]

theorem accFoldPure_keys_nodup (db : CrateDb) :
    ∀ (l : List (RelativePath × Binding)) (m : List (AbsolutePath × RelativePath)),
      (m.map Prod.fst).Nodup → ((accFoldPure db m l).map Prod.fst).Nodup := by
  intro l
  induction l with
  | nil => intro m hm; exact hm
  | cons pb rest ih =>
    intro m hm
    obtain ⟨path, binding⟩ := pb
    by_cases he : bindingEligOpt db path binding = some true
    · have h2 : accFoldPure db m ((path, binding) :: rest) =
          accFoldPure db (updateEntry m binding.absolute_target path) rest := by
        simp [accFoldPure, he]
      rw [h2]
      refine ih _ ?_
      rw [updateEntry_keys]
      by_cases hmem : binding.absolute_target ∈ m.map Prod.fst
      · rw [if_pos hmem]; exact hm
      · rw [if_neg hmem]
        simp [List.nodup_append, hm, hmem]
    · have h2 : accFoldPure db m ((path, binding) :: rest) =
          accFoldPure db m rest := by
        simp [accFoldPure, he]
      rw [h2]
      exact ih m hm

theorem foldl_mergeBest_isSome :
    ∀ (xs : List RelativePath) (acc : RelativePath),
      xs.foldl mergeBest (some acc) ≠ none := by
  intro xs
  induction xs with
  | nil => intro acc h; cases h
  | cons x rest ih =>
    intro acc
    simp only [List.foldl_cons, mergeBest]
    exact ih _

theorem foldl_mergeBest_some_spec :
    ∀ (xs : List RelativePath) (acc : Option RelativePath) (r : RelativePath),
      xs.foldl mergeBest acc = some r →
      (acc = some r ∨ r ∈ xs) ∧
        ∀ y, (acc = some y ∨ y ∈ xs) → y ≠ r → shouldReplaceB r y = true := by
  intro xs
  induction xs with
  | nil =>
    intro acc r h
    refine ⟨Or.inl h, ?_⟩
    intro y hy hne
    rcases hy with hy | hy
    · have : some y = some r := hy.symm.trans h
      exact absurd (Option.some.inj this) hne
    · simp at hy
  | cons x rest ih =>
    intro acc r h
    rw [List.foldl_cons] at h
    -- the merged head of the fold
    have hm0 : ∃ m0, mergeBest acc x = some m0 ∧
        (m0 = x ∨ acc = some m0) ∧
        (m0 ≠ x → shouldReplaceB m0 x = true) ∧
        (∀ cur, acc = some cur → m0 ≠ cur → shouldReplaceB m0 cur = true) := by
      cases hacc : acc with
      | none =>
        refine ⟨x, by simp [mergeBest], Or.inl rfl, fun h => absurd rfl h, ?_⟩
        intro cur hcur; cases hcur
      | some cur =>
        by_cases hrep : shouldReplaceB x cur = true
        · refine ⟨x, by simp [mergeBest, hrep], Or.inl rfl,
            fun h => absurd rfl h, ?_⟩
          intro cur' hcur' hne
          cases Option.some.inj hcur'
          exact hrep
        · refine ⟨cur, by simp [mergeBest, hrep], Or.inr rfl, ?_, ?_⟩
          · intro hne
            cases hx : shouldReplaceB cur x with
            | true => rfl
            | false =>
              exact absurd (shouldReplaceB_strict.conn x cur
                (by simpa using hrep) hx) (Ne.symm hne)
          · intro cur' hcur' hne
            cases Option.some.inj hcur'
            exact absurd rfl hne
    obtain ⟨m0, hm0eq, hm0mem, hbx, hbacc⟩ := hm0
    rw [hm0eq] at h
    obtain ⟨hmem, hmin⟩ := ih (some m0) r h
    constructor
    · rcases hmem with hmem | hmem
      · have hr : m0 = r := Option.some.inj hmem
        subst hr
        rcases hm0mem with hm | hm
        · exact Or.inr (hm ▸ List.mem_cons_self x rest)
        · exact Or.inl hm
      · exact Or.inr (List.mem_cons_of_mem _ hmem)
    · intro y hy hne
      have hr_vs_m0 : r = m0 ∨ shouldReplaceB r m0 = true := by
        by_cases hrm : r = m0
        · exact Or.inl hrm
        · exact Or.inr (hmin m0 (Or.inl rfl) (fun hc => hrm hc.symm))
      have hbeats : ∀ z, z ≠ r → (m0 = z ∨ shouldReplaceB m0 z = true) →
          shouldReplaceB r z = true := by
        intro z hz hmz
        rcases hmz with hmz | hmz
        · subst hmz
          rcases hr_vs_m0 with hr | hr
          · exact absurd hr.symm hz
          · exact hr
        · rcases hr_vs_m0 with hr | hr
          · rw [hr]; exact hmz
          · exact shouldReplaceB_strict.trans r m0 z hr hmz
      rcases hy with hy | hy
      · -- y comes from the original accumulator
        refine hbeats y hne ?_
        by_cases hm0y : m0 = y
        · exact Or.inl hm0y
        · exact Or.inr (hbacc y hy hm0y)
      · rcases List.mem_cons.mp hy with hy | hy
        · subst hy
          refine hbeats y hne ?_
          by_cases hm0y : m0 = y
          · exact Or.inl hm0y
          · exact Or.inr (hbx hm0y)
        · exact hmin y (Or.inr hy) hne

theorem foldl_mergeBest_eq_some_of_min (xs : List RelativePath) (r : RelativePath)
    (hmem : r ∈ xs)
    (hmin : ∀ y ∈ xs, y ≠ r → shouldReplaceB r y = true) :
    xs.foldl mergeBest none = some r := by
  cases hres : xs.foldl mergeBest none with
  | none =>
    cases xs with
    | nil => simp at hmem
    | cons x rest =>
      rw [List.foldl_cons] at hres
      have : mergeBest none x = some x := by simp [mergeBest]
      rw [this] at hres
      exact absurd hres (foldl_mergeBest_isSome rest x)
  | some r' =>
    obtain ⟨hmem', hmin'⟩ := foldl_mergeBest_some_spec xs none r' hres
    have hmem' : r' ∈ xs := by
      rcases hmem' with h | h
      · cases h
      · exact h
    by_cases heq : r' = r
    · rw [heq]
    · have h1 : shouldReplaceB r r' = true := hmin r' hmem' heq
      have h2 : shouldReplaceB r' r = true :=
        hmin' r (Or.inr hmem) (fun hc => heq hc.symm)
      exact absurd h2 (by simp [shouldReplaceB_strict.asymm h1])

theorem mem_candPaths_iff (db : CrateDb) (tgt : AbsolutePath)
    (l : List (RelativePath × Binding)) (rel : RelativePath) :
    rel ∈ candPaths db tgt l ↔
      ∃ b, (rel, b) ∈ l ∧ bindingEligOpt db rel b = some true ∧
        b.absolute_target = tgt := by
  simp only [candPaths, List.mem_map, List.mem_filter]
  constructor
  · rintro ⟨⟨rel', b⟩, ⟨hmem, hmatch⟩, hfst⟩
    cases hfst
    simp only [eligMatchB, Bool.and_eq_true, decide_eq_true_eq] at hmatch
    exact ⟨b, hmem, hmatch.1, hmatch.2⟩
  · rintro ⟨b, hmem, helig, htgt⟩
    exact ⟨(rel, b), ⟨hmem, by simp [eligMatchB, helig, htgt]⟩, rfl⟩

theorem bindingEligOpt_some_true_iff (db : CrateDb) (rel : RelativePath)
    (b : Binding) (h : bindingEligOpt db rel b ≠ none) :
    bindingEligOpt db rel b = some true ↔
      (b.visibility = .Pub ∧ parentModulesVisible db rel) := by
  cases hp : rel.parent with
  | none =>
    simp only [bindingEligOpt, hp, Option.some.injEq, decide_eq_true_eq,
      parentModulesVisible]
    constructor
    · intro hv; exact ⟨hv, fun p hc => by cases hc⟩
    · intro hv; exact hv.1
  | some p =>
    simp only [bindingEligOpt, hp] at h ⊢
    cases hv : db.is_module_externally_visible p with
    | none => rw [hv] at h; simp at h
    | some v =>
      simp only [Option.map_some', Option.some.injEq, Bool.and_eq_true,
        decide_eq_true_eq, parentModulesVisible]
      constructor
      · rintro ⟨hpub, hvtrue⟩
        refine ⟨hpub, ?_⟩
        intro q hq
        rw [hp] at hq
        cases hq
        rw [hv, hvtrue]
      · rintro ⟨hpub, hvis⟩
        have := hvis p (by rw [hp])
        rw [hv] at this
        exact ⟨hpub, Option.some.inj this⟩

theorem mem_map_swap (x : RelativePath × AbsolutePath)
    (ml : List (AbsolutePath × RelativePath)) :
    x ∈ ml.map (fun p => (p.2, p.1)) ↔ (x.2, x.1) ∈ ml := by
  obtain ⟨rel, tgt⟩ := x
  simp only [List.mem_map]
  constructor
  · rintro ⟨⟨t, r⟩, hmem, heq⟩
    obtain ⟨h1, h2⟩ := Prod.mk.injEq .. ▸ heq
    subst h1; subst h2
    exact hmem
  · intro hmem
    exact ⟨(tgt, rel), hmem, rfl⟩

theorem accessible_items_spec (db : Db) (crate_ : CrateId) (crate_db : CrateDb)
    (getNs : CrateDb → CrateNamespace Item)
    (hcrate : alookup db.crates crate_ = some crate_db)
    (hpf : ∀ pb ∈ (getNs crate_db).bindings,
      bindingEligOpt crate_db pb.1 pb.2 ≠ none) :
    ∃ out, db.accessible_items crate_ getNs = some out ∧
      out.Nodup ∧ List.Pairwise resPairLe out ∧
      ∀ rel tgt, (rel, tgt) ∈ out ↔
        (rel ∈ candPaths crate_db tgt (getNs crate_db).bindings ∧
         ∀ rel' ∈ candPaths crate_db tgt (getNs crate_db).bindings,
           rel' ≠ rel → shouldReplaceB rel rel' = true) := by
  have hfold := accFold_eq_pure crate_db (getNs crate_db).bindings hpf []
  have hkeys : ((accFoldPure crate_db [] (getNs crate_db).bindings).map
      Prod.fst).Nodup :=
    accFoldPure_keys_nodup crate_db (getNs crate_db).bindings [] (by simp)
  refine ⟨List.insertionSort resPairLe
      ((accFoldPure crate_db [] (getNs crate_db).bindings).map
        (fun p => (p.2, p.1))), ?_, ?_, ?_, ?_⟩
  · simp only [Db.accessible_items, hcrate, hfold, Option.map_some']
  · have hnd : (accFoldPure crate_db [] (getNs crate_db).bindings).Nodup :=
      List.Nodup.of_map Prod.fst hkeys
    have hndswap : ((accFoldPure crate_db [] (getNs crate_db).bindings).map
        (fun p => (p.2, p.1))).Nodup := by
      refine hnd.map ?_
      intro a b hab
      obtain ⟨h1, h2⟩ := Prod.mk.injEq .. ▸ hab
      exact Prod.ext h2 h1
    exact (List.perm_insertionSort resPairLe _).nodup_iff.mpr hndswap
  · exact List.sorted_insertionSort resPairLe _
  · intro rel tgt
    rw [(List.perm_insertionSort resPairLe _).mem_iff,
      mem_map_swap (rel, tgt) _]
    rw [alookup_eq_some_iff_mem hkeys |>.symm]
    rw [accFoldPure_lookup crate_db (getNs crate_db).bindings [] tgt]
    show List.foldl mergeBest (alookup [] tgt) _ = some rel ↔ _
    constructor
    · intro h
      obtain ⟨hmem, hmin⟩ := foldl_mergeBest_some_spec _ _ _ h
      have hmem : rel ∈ candPaths crate_db tgt (getNs crate_db).bindings := by
        rcases hmem with h | h
        · cases h
        · exact h
      exact ⟨hmem, fun rel' hmem' hne => hmin rel' (Or.inr hmem') hne⟩
    · rintro ⟨hmem, hmin⟩
      exact foldl_mergeBest_eq_some_of_min _ rel hmem hmin

/-- C1: `accessible_items` returns exactly the pairs `(rel, target)` where a
binding at `rel` is `Pub` and its parent-module chain is externally visible,
with `target` the binding's `absolute_target`; among several paths to one
target the shortest wins, ties broken by the lexicographically smallest; the
list is sorted by the `(path, target)` pair. -/
theorem C1_accessible_items_characterization (db : Db) (crate_ : CrateId)
    (crate_db : CrateDb) (getNs : CrateDb → CrateNamespace Item)
    (hcrate : alookup db.crates crate_ = some crate_db)
    (hnodup : (((getNs crate_db).bindings).map Prod.fst).Nodup)
    (hpf : ∀ pb ∈ (getNs crate_db).bindings,
      bindingEligOpt crate_db pb.1 pb.2 ≠ none) :
    ∃ out, db.accessible_items crate_ getNs = some out ∧
      List.Pairwise resPairLe out ∧
      ∀ rel tgt, (rel, tgt) ∈ out ↔
        (∃ b, (rel, b) ∈ (getNs crate_db).bindings ∧
          b.absolute_target = tgt ∧ b.visibility = .Pub ∧
          parentModulesVisible crate_db rel ∧
          ∀ rel' b', (rel', b') ∈ (getNs crate_db).bindings →
            b'.absolute_target = tgt → b'.visibility = .Pub →
            parentModulesVisible crate_db rel' → rel' ≠ rel →
            (rel.length < rel'.length ∨
              (rel.length = rel'.length ∧ pathLtB rel rel' = true))) := by
  obtain ⟨out, hout, hnd, hsorted, hchar⟩ :=
    accessible_items_spec db crate_ crate_db getNs hcrate hpf
  refine ⟨out, hout, hsorted, ?_⟩
  intro rel tgt
  rw [hchar rel tgt]
  constructor
  · rintro ⟨hmem, hmin⟩
    obtain ⟨b, hbmem, helig, htgt⟩ := (mem_candPaths_iff _ _ _ _).mp hmem
    have hprops := (bindingEligOpt_some_true_iff crate_db rel b
      (hpf (rel, b) hbmem)).mp helig
    refine ⟨b, hbmem, htgt, hprops.1, hprops.2, ?_⟩
    intro rel' b' hmem' htgt' hpub' hvis' hne
    have hcand' : rel' ∈ candPaths crate_db tgt (getNs crate_db).bindings := by
      refine (mem_candPaths_iff _ _ _ _).mpr ⟨b', hmem', ?_, htgt'⟩
      exact (bindingEligOpt_some_true_iff crate_db rel' b'
        (hpf (rel', b') hmem')).mpr ⟨hpub', hvis'⟩
    have := hmin rel' hcand' hne
    rwa [shouldReplaceB_iff] at this
  · rintro ⟨b, hbmem, htgt, hpub, hvis, hmin⟩
    constructor
    · refine (mem_candPaths_iff _ _ _ _).mpr ⟨b, hbmem, ?_, htgt⟩
      exact (bindingEligOpt_some_true_iff crate_db rel b
        (hpf (rel, b) hbmem)).mpr ⟨hpub, hvis⟩
    · intro rel' hcand' hne
      obtain ⟨b', hmem', helig', htgt'⟩ := (mem_candPaths_iff _ _ _ _).mp hcand'
      have h2 := (bindingEligOpt_some_true_iff crate_db rel' b'
        (hpf (rel', b') hmem')).mp helig'
      rw [shouldReplaceB_iff]
      exact hmin rel' b' hmem' htgt' h2.1 h2.2 hne

/-- Witness for C1 at the one-binding example database. -/
theorem C1_accessible_items_characterization_witness :
    ∃ out, Db.accessible_items exampleDb ⟨"demo", "1.0"⟩ CrateDb.symbols =
        some out ∧
      List.Pairwise resPairLe out ∧
      ∀ rel tgt, (rel, tgt) ∈ out ↔
        (∃ b, (rel, b) ∈ (CrateDb.symbols exampleCrateDb).bindings ∧
          b.absolute_target = tgt ∧ b.visibility = .Pub ∧
          parentModulesVisible exampleCrateDb rel ∧
          ∀ rel' b', (rel', b') ∈ (CrateDb.symbols exampleCrateDb).bindings →
            b'.absolute_target = tgt → b'.visibility = .Pub →
            parentModulesVisible exampleCrateDb rel' → rel' ≠ rel →
            (rel.length < rel'.length ∨
              (rel.length = rel'.length ∧ pathLtB rel rel' = true))) :=
  C1_accessible_items_characterization exampleDb ⟨"demo", "1.0"⟩ exampleCrateDb
    CrateDb.symbols rfl (by decide) (by decide)

theorem isVisibleFrom_congr (modB₁ modB₂ : List (RelativePath × Binding))
    (hperm : modB₁.Perm modB₂) (hnodup : (modB₁.map Prod.fst).Nodup) :
    ∀ (l : List Ident) (cur : RelativePath),
      isVisibleFrom modB₁ cur l = isVisibleFrom modB₂ cur l := by
  intro l
  induction l with
  | nil => intro cur; rfl
  | cons e rest ih =>
    intro cur
    have hl := alookup_perm hnodup hperm (cur ++ [e])
    cases hb : alookup modB₁ (cur ++ [e]) with
    | none =>
      have hb₂ : alookup modB₂ (cur ++ [e]) = none := hl ▸ hb
      simp [isVisibleFrom, hb, hb₂]
    | some b =>
      have hb₂ : alookup modB₂ (cur ++ [e]) = some b := hl ▸ hb
      by_cases hvis : b.visibility = Visibility.NonPub
      · simp [isVisibleFrom, hb, hb₂, hvis]
      · simp [isVisibleFrom, hb, hb₂, hvis, ih]

theorem bindingEligOpt_congr (cdb₁ cdb₂ : CrateDb)
    (hmods : cdb₁.modules.bindings.Perm cdb₂.modules.bindings)
    (hmodnodup : (cdb₁.modules.bindings.map Prod.fst).Nodup)
    (rel : RelativePath) (b : Binding) :
    bindingEligOpt cdb₁ rel b = bindingEligOpt cdb₂ rel b := by
  cases hp : rel.parent with
  | none => simp [bindingEligOpt, hp]
  | some p =>
    simp only [bindingEligOpt, hp, CrateDb.is_module_externally_visible]
    rw [isVisibleFrom_congr cdb₁.modules.bindings cdb₂.modules.bindings
      hmods hmodnodup p []]

/-- C2: for fixed database content, the output of `accessible_items` is
independent of the iteration order of the bindings maps — the
shortest-then-lexicographic tie-break has a unique answer, so any two
enumeration orders produce identical output. -/
theorem C2_accessible_items_deterministic
    (db₁ db₂ : Db) (crate_ : CrateId) (cdb₁ cdb₂ : CrateDb)
    (getNs : CrateDb → CrateNamespace Item)
    (h₁ : alookup db₁.crates crate_ = some cdb₁)
    (h₂ : alookup db₂.crates crate_ = some cdb₂)
    (hperm : (getNs cdb₁).bindings.Perm (getNs cdb₂).bindings)
    (hmods : cdb₁.modules.bindings.Perm cdb₂.modules.bindings)
    (hmodnodup : (cdb₁.modules.bindings.map Prod.fst).Nodup)
    (hpf : ∀ pb ∈ (getNs cdb₁).bindings,
      bindingEligOpt cdb₁ pb.1 pb.2 ≠ none) :
    db₁.accessible_items crate_ getNs = db₂.accessible_items crate_ getNs := by
  have hcongr : ∀ rel b, bindingEligOpt cdb₁ rel b = bindingEligOpt cdb₂ rel b :=
    fun rel b => bindingEligOpt_congr cdb₁ cdb₂ hmods hmodnodup rel b
  have hpf₂ : ∀ pb ∈ (getNs cdb₂).bindings,
      bindingEligOpt cdb₂ pb.1 pb.2 ≠ none := by
    intro pb hmem
    rw [← hcongr]
    exact hpf pb (hperm.mem_iff.mpr hmem)
  obtain ⟨out₁, hout₁, hnd₁, hs₁, hchar₁⟩ :=
    accessible_items_spec db₁ crate_ cdb₁ getNs h₁ hpf
  obtain ⟨out₂, hout₂, hnd₂, hs₂, hchar₂⟩ :=
    accessible_items_spec db₂ crate_ cdb₂ getNs h₂ hpf₂
  have hcand : ∀ r t, r ∈ candPaths cdb₁ t (getNs cdb₁).bindings ↔
      r ∈ candPaths cdb₂ t (getNs cdb₂).bindings := by
    intro r t
    rw [mem_candPaths_iff, mem_candPaths_iff]
    constructor
    · rintro ⟨b, hb, he, ht⟩
      refine ⟨b, hperm.mem_iff.mp hb, ?_, ht⟩
      rw [← hcongr]; exact he
    · rintro ⟨b, hb, he, ht⟩
      refine ⟨b, hperm.mem_iff.mpr hb, ?_, ht⟩
      rw [hcongr]; exact he
  have hmemiff : ∀ x, x ∈ out₁ ↔ x ∈ out₂ := by
    rintro ⟨rel, tgt⟩
    rw [hchar₁, hchar₂]
    constructor
    · rintro ⟨hm, hmin⟩
      exact ⟨(hcand _ _).mp hm,
        fun r' hr' hne => hmin r' ((hcand _ _).mpr hr') hne⟩
    · rintro ⟨hm, hmin⟩
      exact ⟨(hcand _ _).mpr hm,
        fun r' hr' hne => hmin r' ((hcand _ _).mp hr') hne⟩
  have hperm_out : out₁.Perm out₂ :=
    (List.perm_ext_iff_of_nodup hnd₁ hnd₂).mpr hmemiff
  have hout_eq : out₁ = out₂ := List.eq_of_perm_of_sorted hperm_out hs₁ hs₂
  rw [hout₁, hout₂, hout_eq]

/-- Witness for C2: the same two bindings enumerated in the two possible
orders produce identical output. -/
theorem C2_accessible_items_deterministic_witness :
    Db.accessible_items ⟨[(⟨"demo", "1.0"⟩, exampleCrateDbA)]⟩ ⟨"demo", "1.0"⟩
        CrateDb.types =
      Db.accessible_items ⟨[(⟨"demo", "1.0"⟩, exampleCrateDbB)]⟩ ⟨"demo", "1.0"⟩
        CrateDb.types :=
  C2_accessible_items_deterministic
    ⟨[(⟨"demo", "1.0"⟩, exampleCrateDbA)]⟩
    ⟨[(⟨"demo", "1.0"⟩, exampleCrateDbB)]⟩
    ⟨"demo", "1.0"⟩ exampleCrateDbA exampleCrateDbB CrateDb.types rfl rfl
    (by decide) (by decide) (by decide) (by decide)
